import Mathlib

/-!
ThreadPool: a shallow embedding of `thread_pool.h` / `thread_pool.cpp`

The development has two layers.

* `SafeQueue T` embeds the mutex-protected FIFO of `thread_pool.cpp` lines 3-34.
  Every member function takes the queue's own mutex for its whole body, so
  each call is one atomic function on the contents.
* `ThreadPool V E` embeds the pool (lines 42-114) as a transition system: the
  state holds the members of the class plus the program counter and the locals
  of every worker thread, and `step` performs one atomic statement of one
  thread.  Thread interleaving is the choice of the next `Action`.

Conventions of the embedding.

* A submitted callable is a function to `Except E V`: it returns a value
  (`Except.ok`) or throws (`Except.error`); `V` and `E` are the types of the
  values and of the errors.
* Reads and writes of `m_shutdown` are atomic and sequentially consistent.
* `std::packaged_task`, `std::condition_variable`, `std::mutex` and
  `std::thread` follow the C++ standard: `notify_one` unblocks one waiting
  thread if there is one, `wait` may wake up spuriously, `join` returns when the
  thread has finished, a packaged task stores the value or the exception of its
  callable and throws when invoked a second time.
* One thread drives the life cycle: it calls `init()` and `shutdown()` one
  after the other, in any order and any number of times (neither function has a
  guard); `submit` may be called by any thread at any time, its two effects
  (enqueue, notify) being separate steps.
* `int` results are 32-bit two's complement.
-/

namespace ThreadPoolSpec

/-! ## Machine integers -/

/-- Conversion of an unsigned count to the 32-bit `int` of the source
(two's complement narrowing, as `return m_queue.size();` does in a function
declared `int`). -/
def toInt32 (n : Nat) : Int :=
  if n % 2 ^ 32 < 2 ^ 31 then ((n % 2 ^ 32 : Nat) : Int)
  else ((n % 2 ^ 32 : Nat) : Int) - 2 ^ 32

/-! ## SafeQueue (thread_pool.cpp lines 3-34) -/

/-- The class `SafeQueue<T>`: `m_queue` is the `std::queue<T>`, front first.
The member `m_mutex` is held during the whole body of each member function,
which is why each of them is a function of the contents. -/
structure SafeQueue (T : Type) where
  m_queue : List T

namespace SafeQueue

variable {T : Type}

/-- A default-constructed queue, `SafeQueue() {}`. -/
def empty : SafeQueue T := ⟨[]⟩

/-- The member `bool queue_empty()`: `return m_queue.empty();`. -/
def queue_empty (q : SafeQueue T) : Bool :=
  q.m_queue.isEmpty

/-- The member `int queue_size()`: `return m_queue.size();`, the `size_t`
count narrowed to `int`. -/
def queue_size (q : SafeQueue T) : Int :=
  toInt32 q.m_queue.length

/-- The member `void enqueue(T &t)`: `m_queue.emplace(t);` puts a copy of `t`
at the back. -/
def enqueue (q : SafeQueue T) (t : T) : SafeQueue T :=
  ⟨q.m_queue ++ [t]⟩

/-- The member `bool dequeue(T &t)`.  The result is the returned flag, the value
of the reference parameter `t` after the call, and the queue after the call:
on an empty queue `return false;` happens before `t` is touched, otherwise
`t = move(m_queue.front()); m_queue.pop(); return true;`. -/
def dequeue (q : SafeQueue T) (t : T) : Bool × T × SafeQueue T :=
  match q.m_queue with
  | [] => (false, t, q)
  | h :: rest => (true, h, ⟨rest⟩)

/-- The calls `enqueue(t1); ...; enqueue(tn);` in this order. -/
def enqueueAll (q : SafeQueue T) (ts : List T) : SafeQueue T :=
  ts.foldl enqueue q

/-- The consumer loop `while (!q.queue_empty()) ok = q.dequeue(t);` run for at
most `fuel` iterations.  The result lists, per iteration, the flag returned by
`dequeue` and the value it left in `t`, then the final `t` and the final queue. -/
def drain : Nat → SafeQueue T → T → List (Bool × T) × T × SafeQueue T
  | 0, q, t => ([], t, q)
  | fuel + 1, q, t =>
    if q.queue_empty then ([], t, q)
    else
      let r := q.dequeue t
      let rest := drain fuel r.2.2 r.2.1
      ((r.1, r.2.1) :: rest.1, rest.2.1, rest.2.2)

end SafeQueue

/-! ## Task envelopes (thread_pool.cpp lines 47-58) -/

/-- A value of type `function<void()>`: either empty (a default-constructed
`function<void()> func;`, line 74) or a copy of the lambda `[task_ptr]() { (*task_ptr)(); }`
of `submit` (lines 55-58), which is determined by the `task_ptr` it captures. -/
inductive Wrapper where
  | empty
  | task (task_ptr : Nat)
  deriving DecidableEq

/-- The object `*task_ptr` made by `make_shared<packaged_task<R()>>(func)` (line 51)
together with its shared state.  `func` is the bound callable; running it either
returns a value (`Except.ok`) or throws (`Except.error`).  `state` is the shared
state the future reads: `none` until it is made ready.  `calls` and `invoked` are
history counters: how often `func` was run, and how often a worker ran the
wrapper `(*task_ptr)()`. -/
structure PackagedTask (V E : Type) where
  func : Unit → Except E V
  state : Option (Except E V)
  calls : Nat
  invoked : Nat

/-- The expression `bind(forward<F>(f), forward<Args>(args)...)` of line 47: a
zero-argument callable that runs `f(args...)`. -/
def bind {A V E : Type} (f : A → Except E V) (args : A) : Unit → Except E V :=
  fun _ => f args

/-- The call `(*task_ptr)()`, i.e. `packaged_task::operator()`.  With a shared
state that is not ready it runs the stored callable and stores its value or its
exception, returning normally (`true`).  With a shared state that is already
satisfied it throws `future_error` without running the callable (`false`). -/
def PackagedTask.invoke {V E : Type} (p : PackagedTask V E) : PackagedTask V E × Bool :=
  match p.state with
  | none =>
    ({ p with state := some (p.func ()), calls := p.calls + 1, invoked := p.invoked + 1 }, true)
  | some _ => ({ p with invoked := p.invoked + 1 }, false)

/-! ## Worker threads (thread_pool.cpp lines 72-91) -/

/-- Program counter of one slot of `m_threads`.

* `notStarted`: the slot holds a default-constructed `thread`;
* `loopHead`: about to evaluate `while (!m_pool->m_shutdown)` (line 77);
* `lock`: constructing `unique_lock<mutex> m_lock(m_pool->m_conditional_mutex)` (line 80);
* `checkEmpty`: about to evaluate `if (m_pool->m_queue.queue_empty())` (line 82);
* `enterWait`: about to call `m_conditional_lock.wait(m_lock)` (line 83);
* `waiting`: blocked inside `wait`, the mutex released;
* `woken`: unblocked inside `wait`, re-acquiring the mutex;
* `dequeue`: about to run `dequeued = m_pool->m_queue.dequeue(func)` (line 86);
* `unlock`: at the closing brace of line 87 (destructor of `m_lock`), then `if (dequeued)`;
* `running`: about to run `func()` (line 89);
* `terminated`: `operator()` has returned;
* `aborted`: an exception left `operator()`. -/
inductive Pc where
  | notStarted | loopHead | lock | checkEmpty | enterWait | waiting | woken
  | dequeue | unlock | running | terminated | aborted
  deriving DecidableEq

/-- One slot of `m_threads` with the `ThreadWorker` activation running on it:
the program counter, the locals `func` and `dequeued` of `operator()`, and
`joinable()` of the `thread` object.  The member `m_id` is the index of the slot. -/
structure ThreadWorker where
  pc : Pc
  func : Wrapper
  dequeued : Bool
  joinable : Bool
  deriving DecidableEq

/-- Where the thread that drives the life cycle of the pool stands.

* `constructed`: the constructor has returned, nothing else was called;
* `initLoop i`: inside `init()`, at the loop test with index `i` (line 95);
* `serving`: `init()` has returned;
* `shutNotify`: inside `shutdown()`, after `m_shutdown = true` (line 106);
* `joinLoop i`: inside `shutdown()`, at the loop test with index `i` (line 108);
* `returned`: `shutdown()` has returned. -/
inductive Phase where
  | constructed
  | initLoop (i : Nat)
  | serving
  | shutNotify
  | joinLoop (i : Nat)
  | returned
  deriving DecidableEq

/-! ## The pool (thread_pool.h lines 28-60) -/

/-- The class `ThreadPool` with the threads it owns.  `m_conditional_mutex` is
the index of the worker that owns the mutex, if any.  The condition variable
`m_conditional_lock` has no field: the threads blocked on it are the workers
whose `pc` is `waiting`.  `heap` holds the packaged tasks allocated by `submit`,
`task_ptr` being the index.  `unnotified` counts the calls of `submit` that have
executed line 61 and not yet line 64. -/
structure ThreadPool (V E : Type) where
  m_shutdown : Bool
  m_queue : SafeQueue Wrapper
  m_threads : List ThreadWorker
  m_conditional_mutex : Option Nat
  heap : List (PackagedTask V E)
  unnotified : Nat
  phase : Phase

/-- The labels of the atomic steps; a run of the system is a list of them.

* `init`: the next statement of `init()`;
* `shutdown`: the next statement of `shutdown()`;
* `submit func`: lines 51-61 of a call of `submit` whose line 47 produced `func`;
* `notify_one i`: line 64 of a call of `submit`; `i` is the waiting worker that
  is unblocked, `none` when no worker is waiting;
* `worker i`: the next statement of worker `i`;
* `spurious i`: a spurious wakeup of worker `i`. -/
inductive Action (V E : Type) where
  | init
  | shutdown
  | submit (func : Unit → Except E V)
  | notify_one (i : Option Nat)
  | worker (i : Nat)
  | spurious (i : Nat)

namespace ThreadPool

variable {V E : Type}

/-- The constructor `ThreadPool(const int n_threads = 4)`:
`m_threads(vector<thread>(n_threads)), m_shutdown(false)`.  A negative
`n_threads` converts to a `size_t` above `max_size()` and the constructor throws
(`none`). -/
def construct (n_threads : Int) : Option (ThreadPool V E) :=
  if 0 ≤ n_threads then
    some
      { m_shutdown := false
        m_queue := SafeQueue.empty
        m_threads := List.replicate n_threads.toNat ⟨Pc.notStarted, Wrapper.empty, false, false⟩
        m_conditional_mutex := none
        heap := []
        unnotified := 0
        phase := Phase.constructed }
  else none

/-- The future returned by `task_ptr->get_future()` (line 67), consulted with
`get()`: `none` while the shared state is not ready, else the value it yields
(`Except.ok`) or the error it raises (`Except.error`). -/
def future_get (s : ThreadPool V E) (task_ptr : Nat) : Option (Except E V) :=
  match s.heap[task_ptr]? with
  | some p => p.state
  | none => none

/-- How often a worker has run the wrapper of `task_ptr`. -/
def invoked (s : ThreadPool V E) (task_ptr : Nat) : Nat :=
  match s.heap[task_ptr]? with
  | some p => p.invoked
  | none => 0

/-- How often the callable bound in `task_ptr` has been run. -/
def calls (s : ThreadPool V E) (task_ptr : Nat) : Nat :=
  match s.heap[task_ptr]? with
  | some p => p.calls
  | none => 0

/-- The program counter of worker `i` (`notStarted` outside `m_threads`). -/
def pcOf (s : ThreadPool V E) (i : Nat) : Pc :=
  match s.m_threads[i]? with
  | some w => w.pc
  | none => Pc.notStarted

/-- Lines 51-61 of `submit`: allocate the packaged task around `func`, build the
wrapper capturing `task_ptr`, and `m_queue.enqueue(warpper_func)`. -/
def submit (s : ThreadPool V E) (func : Unit → Except E V) : ThreadPool V E :=
  let task_ptr := s.heap.length
  { s with
    heap := s.heap ++ [⟨func, none, 0, 0⟩]
    m_queue := s.m_queue.enqueue (Wrapper.task task_ptr)
    unnotified := s.unnotified + 1 }

/-- Line 64 of `submit`: `m_conditional_lock.notify_one()`.  It unblocks one
waiting worker, `i`; with no waiting worker it does nothing. -/
def notify_one (s : ThreadPool V E) (i : Option Nat) : Option (ThreadPool V E) :=
  if s.unnotified = 0 then none
  else
    match i with
    | none =>
      if s.m_threads.all (fun w => decide (w.pc ≠ Pc.waiting)) then
        some { s with unnotified := s.unnotified - 1 }
      else none
    | some i =>
      match s.m_threads[i]? with
      | some w =>
        if w.pc = Pc.waiting then
          some { s with
            m_threads := s.m_threads.set i { w with pc := Pc.woken }
            unnotified := s.unnotified - 1 }
        else none
      | none => none

/-- A spurious wakeup of worker `i` inside `wait`. -/
def spurious (s : ThreadPool V E) (i : Nat) : Option (ThreadPool V E) :=
  match s.m_threads[i]? with
  | some w =>
    if w.pc = Pc.waiting then
      some { s with m_threads := s.m_threads.set i { w with pc := Pc.woken } }
    else none
  | none => none

/-- The next statement of `ThreadWorker::operator()` for the worker with index
`m_id`, locals `w` and pool `pool` (the pointer `m_pool`).  The result is the
new locals and the pool with its members other than `m_threads` updated; `none`
when the thread cannot move (not started, blocked on the mutex or inside
`wait`, finished). -/
def operator_call (m_id : Nat) (w : ThreadWorker) (pool : ThreadPool V E) :
    Option (ThreadWorker × ThreadPool V E) :=
  match w.pc with
  | Pc.notStarted => none
  | Pc.loopHead =>
    if pool.m_shutdown then some ({ w with pc := Pc.terminated }, pool)
    else some ({ w with pc := Pc.lock }, pool)
  | Pc.lock =>
    match pool.m_conditional_mutex with
    | none => some ({ w with pc := Pc.checkEmpty }, { pool with m_conditional_mutex := some m_id })
    | some _ => none
  | Pc.checkEmpty =>
    if pool.m_queue.queue_empty then some ({ w with pc := Pc.enterWait }, pool)
    else some ({ w with pc := Pc.dequeue }, pool)
  | Pc.enterWait => some ({ w with pc := Pc.waiting }, { pool with m_conditional_mutex := none })
  | Pc.waiting => none
  | Pc.woken =>
    match pool.m_conditional_mutex with
    | none => some ({ w with pc := Pc.dequeue }, { pool with m_conditional_mutex := some m_id })
    | some _ => none
  | Pc.dequeue =>
    let r := pool.m_queue.dequeue w.func
    some ({ w with pc := Pc.unlock, func := r.2.1, dequeued := r.1 }, { pool with m_queue := r.2.2 })
  | Pc.unlock =>
    some ({ w with pc := if w.dequeued then Pc.running else Pc.loopHead },
      { pool with m_conditional_mutex := none })
  | Pc.running =>
    match w.func with
    | Wrapper.empty => some ({ w with pc := Pc.aborted }, pool)
    | Wrapper.task task_ptr =>
      match pool.heap[task_ptr]? with
      | none => some ({ w with pc := Pc.aborted }, pool)
      | some p =>
        let r := p.invoke
        some ({ w with pc := if r.2 then Pc.loopHead else Pc.aborted },
          { pool with heap := pool.heap.set task_ptr r.1 })
  | Pc.terminated => none
  | Pc.aborted => none

/-- Worker `i` executes its next statement. -/
def worker (s : ThreadPool V E) (i : Nat) : Option (ThreadPool V E) :=
  match s.m_threads[i]? with
  | none => none
  | some w =>
    match operator_call i w s with
    | none => none
    | some r => some { r.2 with m_threads := r.2.m_threads.set i r.1 }

/-- The next statement of `init()`: entering the function, one iteration
`m_threads.at(i) = thread(ThreadWorker(this, i))` of the loop, or leaving it.
The function has no guard: it can be entered whenever the driving thread is not
inside `init()` or `shutdown()`, also a second time and after `shutdown()` has
returned.  Assigning to a slot that is joinable calls `std::terminate`
(`none`). -/
def init (s : ThreadPool V E) : Option (ThreadPool V E) :=
  match s.phase with
  | Phase.initLoop i =>
    if i < s.m_threads.length then
      match s.m_threads[i]? with
      | some w =>
        if w.joinable then none
        else
          some { s with
            m_threads := s.m_threads.set i ⟨Pc.loopHead, Wrapper.empty, false, true⟩
            phase := Phase.initLoop (i + 1) }
      | none => none
    else some { s with phase := Phase.serving }
  | Phase.shutNotify => none
  | Phase.joinLoop _ => none
  | _ => some { s with phase := Phase.initLoop 0 }

/-- The effect of `notify_all()` on one slot. -/
def wake (w : ThreadWorker) : ThreadWorker :=
  if w.pc = Pc.waiting then { w with pc := Pc.woken } else w

/-- The next statement of `shutdown()`: `m_shutdown = true` (line 106),
`m_conditional_lock.notify_all()` (line 107), one iteration of the join loop
(lines 108-113; `join()` returns once the thread has terminated), or leaving. -/
def shutdown (s : ThreadPool V E) : Option (ThreadPool V E) :=
  match s.phase with
  | Phase.initLoop _ => none
  | Phase.shutNotify =>
    some { s with m_threads := s.m_threads.map wake, phase := Phase.joinLoop 0 }
  | Phase.joinLoop i =>
    if i < s.m_threads.length then
      match s.m_threads[i]? with
      | some w =>
        if w.joinable then
          if w.pc = Pc.terminated then
            some { s with
              m_threads := s.m_threads.set i { w with joinable := false }
              phase := Phase.joinLoop (i + 1) }
          else none
        else some { s with phase := Phase.joinLoop (i + 1) }
      | none => none
    else some { s with phase := Phase.returned }
  | _ => some { s with m_shutdown := true, phase := Phase.shutNotify }

/-- One atomic step of the system. -/
def step (s : ThreadPool V E) : Action V E → Option (ThreadPool V E)
  | Action.init => s.init
  | Action.shutdown => s.shutdown
  | Action.submit func => some (s.submit func)
  | Action.notify_one i => s.notify_one i
  | Action.worker i => s.worker i
  | Action.spurious i => s.spurious i

/-- The state after a schedule, `none` when one of its steps is not enabled. -/
def run (s : ThreadPool V E) : List (Action V E) → Option (ThreadPool V E)
  | [] => some s
  | a :: rest =>
    match s.step a with
    | some s' => run s' rest
    | none => none

/-- The run that constructs a pool of `n_threads` workers and then follows a schedule. -/
def runFrom (n_threads : Int) (sched : List (Action V E)) : Option (ThreadPool V E) :=
  match construct n_threads with
  | some s => s.run sched
  | none => none

end ThreadPool

/-- The states a pool constructed with `n_threads` can be in. -/
inductive Reachable {V E : Type} (n_threads : Int) : ThreadPool V E → Prop where
  | construct {s : ThreadPool V E} :
      ThreadPool.construct n_threads = some s → Reachable n_threads s
  | step {s s' : ThreadPool V E} (a : Action V E) :
      Reachable n_threads s → s.step a = some s' → Reachable n_threads s'

/-- The states the system can move to from `s`, in any number of steps. -/
inductive Steps {V E : Type} : ThreadPool V E → ThreadPool V E → Prop where
  | refl (s : ThreadPool V E) : Steps s s
  | step {s s' s'' : ThreadPool V E} (a : Action V E) :
      Steps s s' → s'.step a = some s'' → Steps s s''

/-! ## Invariants of the reachable states -/

/-- The program points inside the scope of `m_lock` (lines 80-87) at which the
worker owns `m_conditional_mutex`. -/
def Pc.holdsMutex : Pc → Bool
  | Pc.checkEmpty => true
  | Pc.enterWait => true
  | Pc.dequeue => true
  | Pc.unlock => true
  | _ => false

/-- The worker has taken a wrapper out of the queue in this iteration and has
not run it yet: it is past a `dequeue` that returned `true` and before the end
of `func()`. -/
def ThreadWorker.holdsTask (w : ThreadWorker) : Bool :=
  (decide (w.pc = Pc.unlock) && w.dequeued) || decide (w.pc = Pc.running)

/-- The worker holds the wrapper of `task_ptr`, see `ThreadWorker.holdsTask`. -/
def ThreadWorker.pendingOn (task_ptr : Nat) (w : ThreadWorker) : Bool :=
  w.holdsTask && decide (w.func = Wrapper.task task_ptr)

/-- The program points of a worker that is inside its loop and not blocked in
`wait`. -/
def Pc.active : Pc → Bool
  | Pc.loopHead => true
  | Pc.lock => true
  | Pc.woken => true
  | Pc.checkEmpty => true
  | Pc.dequeue => true
  | Pc.unlock => true
  | Pc.running => true
  | _ => false

/-- The number of statements that separate a program point from the next
`dequeue` of the same worker (the `unlock` and `running` that follow a
`dequeue` come first in the next round). -/
def Pc.rank : Pc → Nat
  | Pc.dequeue => 0
  | Pc.checkEmpty => 1
  | Pc.woken => 1
  | Pc.lock => 2
  | Pc.loopHead => 3
  | Pc.running => 4
  | Pc.unlock => 5
  | _ => 0

/-- The step is a statement of `init()`. -/
def Action.isInit {V E : Type} : Action V E → Bool
  | Action.init => true
  | _ => false

/-- The step is a statement of a worker thread. -/
def Action.isWorker {V E : Type} : Action V E → Bool
  | Action.worker _ => true
  | _ => false

/-- The step is the `notify_one` of a `submit`. -/
def Action.isNotify {V E : Type} : Action V E → Bool
  | Action.notify_one _ => true
  | _ => false

/-- A schedule of the pool alone: steps of worker threads and at most one
`notify_one` of a `submit`; no further `submit`, no `init()`, no `shutdown()`
and no spurious wakeup. -/
def poolSched {V E : Type} (sched : List (Action V E)) : Bool :=
  sched.all (fun a => a.isWorker || a.isNotify) &&
    decide (sched.countP Action.isNotify ≤ 1)

/-- The graph of `ThreadPool.operator_call`, one constructor per branch of the
worker loop. -/
inductive WorkerStep {V E : Type} (i : Nat) (w : ThreadWorker) (s : ThreadPool V E) :
    ThreadWorker → ThreadPool V E → Prop where
  | exit (hpc : w.pc = Pc.loopHead) (h : s.m_shutdown = true) :
      WorkerStep i w s { w with pc := Pc.terminated } s
  | loop (hpc : w.pc = Pc.loopHead) (h : s.m_shutdown = false) :
      WorkerStep i w s { w with pc := Pc.lock } s
  | lock (hpc : w.pc = Pc.lock) (h : s.m_conditional_mutex = none) :
      WorkerStep i w s { w with pc := Pc.checkEmpty } { s with m_conditional_mutex := some i }
  | isEmpty (hpc : w.pc = Pc.checkEmpty) (h : s.m_queue.m_queue = []) :
      WorkerStep i w s { w with pc := Pc.enterWait } s
  | nonEmpty (hpc : w.pc = Pc.checkEmpty) (h : s.m_queue.m_queue ≠ []) :
      WorkerStep i w s { w with pc := Pc.dequeue } s
  | wait (hpc : w.pc = Pc.enterWait) :
      WorkerStep i w s { w with pc := Pc.waiting } { s with m_conditional_mutex := none }
  | relock (hpc : w.pc = Pc.woken) (h : s.m_conditional_mutex = none) :
      WorkerStep i w s { w with pc := Pc.dequeue } { s with m_conditional_mutex := some i }
  | dequeueFail (hpc : w.pc = Pc.dequeue) (h : s.m_queue.m_queue = []) :
      WorkerStep i w s { w with pc := Pc.unlock, dequeued := false } s
  | dequeueOk (hpc : w.pc = Pc.dequeue) (x : Wrapper) (rest : List Wrapper)
      (h : s.m_queue.m_queue = x :: rest) :
      WorkerStep i w s { w with pc := Pc.unlock, func := x, dequeued := true }
        { s with m_queue := ⟨rest⟩ }
  | unlockRun (hpc : w.pc = Pc.unlock) (h : w.dequeued = true) :
      WorkerStep i w s { w with pc := Pc.running } { s with m_conditional_mutex := none }
  | unlockLoop (hpc : w.pc = Pc.unlock) (h : w.dequeued = false) :
      WorkerStep i w s { w with pc := Pc.loopHead } { s with m_conditional_mutex := none }
  | runEmpty (hpc : w.pc = Pc.running) (h : w.func = Wrapper.empty) :
      WorkerStep i w s { w with pc := Pc.aborted } s
  | runDangling (hpc : w.pc = Pc.running) (k : Nat) (h : w.func = Wrapper.task k)
      (hk : s.heap[k]? = none) :
      WorkerStep i w s { w with pc := Pc.aborted } s
  | runOk (hpc : w.pc = Pc.running) (k : Nat) (p : PackagedTask V E)
      (h : w.func = Wrapper.task k) (hk : s.heap[k]? = some p) (hs : p.state = none) :
      WorkerStep i w s { w with pc := Pc.loopHead }
        { s with
          heap := s.heap.set k
                    { p with state := some (p.func ()), calls := p.calls + 1, invoked := p.invoked + 1 } }
  | runTwice (hpc : w.pc = Pc.running) (k : Nat) (p : PackagedTask V E)
      (h : w.func = Wrapper.task k) (hk : s.heap[k]? = some p) (hs : p.state ≠ none) :
      WorkerStep i w s { w with pc := Pc.aborted }
        { s with heap := s.heap.set k { p with invoked := p.invoked + 1 } }

/-- The invariant of the pool: ownership of the wait-mutex, conservation of the
submitted wrappers (each is in the queue, or held by one worker, or has been
run once), consistency of every packaged task with its history, no worker
aborted by an exception, no worker terminated before the flag is set, and the
bookkeeping of `shutdown()`. -/
structure Inv {V E : Type} (s : ThreadPool V E) : Prop where
  mutex_of_holds : ∀ (i : Nat) (w : ThreadWorker), s.m_threads[i]? = some w → w.pc.holdsMutex = true →
    s.m_conditional_mutex = some i
  holds_of_mutex : ∀ i, s.m_conditional_mutex = some i →
    ∃ w, s.m_threads[i]? = some w ∧ w.pc.holdsMutex = true
  queue_tasks : ∀ x ∈ s.m_queue.m_queue, ∃ k, x = Wrapper.task k ∧ k < s.heap.length
  pending_task : ∀ (i : Nat) (w : ThreadWorker), s.m_threads[i]? = some w → w.holdsTask = true →
    ∃ k, w.func = Wrapper.task k ∧ k < s.heap.length
  running_dequeued : ∀ (i : Nat) (w : ThreadWorker), s.m_threads[i]? = some w → w.pc = Pc.running → w.dequeued = true
  tokens : ∀ (k : Nat) (p : PackagedTask V E), s.heap[k]? = some p →
    s.m_queue.m_queue.count (Wrapper.task k) + s.m_threads.countP (ThreadWorker.pendingOn k)
      + p.invoked = 1
  heap_ok : ∀ (k : Nat) (p : PackagedTask V E), s.heap[k]? = some p →
    p.calls = p.invoked ∧ (p.state = none ↔ p.invoked = 0) ∧
      ∀ r, p.state = some r → r = p.func ()
  not_aborted : ∀ (i : Nat) (w : ThreadWorker), s.m_threads[i]? = some w → w.pc ≠ Pc.aborted
  terminated_flag : ∀ (i : Nat) (w : ThreadWorker), s.m_threads[i]? = some w →
    w.pc = Pc.terminated → s.m_shutdown = true
  joined : ∀ (i : Nat) (w : ThreadWorker), s.m_threads[i]? = some w →
    (w.joinable = false → w.pc = Pc.notStarted ∨ w.pc = Pc.terminated) ∧
      (w.pc = Pc.notStarted → w.joinable = false)
  flag_set : s.phase = Phase.shutNotify ∨ (∃ j, s.phase = Phase.joinLoop j) ∨
    s.phase = Phase.returned → s.m_shutdown = true
  joined_prefix : ∀ j, s.phase = Phase.joinLoop j →
    ∀ (i : Nat) (w : ThreadWorker), i < j → s.m_threads[i]? = some w → w.joinable = false
  joined_all : s.phase = Phase.returned →
    ∀ (i : Nat) (w : ThreadWorker), s.m_threads[i]? = some w → w.joinable = false

/-- What holds of a state `s2` that continues a state `s` in which the shutdown
flag is set and no worker is inside its loop: the flag is still set, every
worker is not started, at the loop test or terminated, the queue of `s` has
only grown, and the packaged tasks are those of `s`, unchanged, followed by
tasks that were never invoked. -/
structure Halted {V E : Type} (s s2 : ThreadPool V E) : Prop where
  flag : s2.m_shutdown = true
  outside : ∀ (i : Nat) (w : ThreadWorker), s2.m_threads[i]? = some w →
    w.pc = Pc.notStarted ∨ w.pc = Pc.loopHead ∨ w.pc = Pc.terminated
  queue : ∃ extra, s2.m_queue.m_queue = s.m_queue.m_queue ++ extra
  old_count : ∀ k, k < s.heap.length →
    s2.m_queue.m_queue.count (Wrapper.task k) = s.m_queue.m_queue.count (Wrapper.task k)
  heap_len : s.heap.length ≤ s2.heap.length
  old_heap : ∀ k, k < s.heap.length → s2.heap[k]? = s.heap[k]?
  new_heap : ∀ (k : Nat) (p : PackagedTask V E), s.heap.length ≤ k → s2.heap[k]? = some p →
    p.invoked = 0 ∧ p.calls = 0 ∧ p.state = none

/-! ## Scenarios -/

/-- The state after a pool of `n_threads` workers has been constructed and has
followed a schedule (the freshly constructed empty pool if it cannot). -/
def ThreadPool.after {V E : Type} (n_threads : Int) (sched : List (Action V E)) :
    ThreadPool V E :=
  match ThreadPool.runFrom n_threads sched with
  | some s => s
  | none => ⟨false, SafeQueue.empty, [], none, [], 0, Phase.constructed⟩

/-- The errors of the example tasks. -/
inductive DemoError where
  | division_by_zero
  deriving DecidableEq

/-- An example task: it returns 7. -/
def seven : Unit → Except DemoError Nat :=
  bind (fun x : Nat => Except.ok (x + 3)) 4

/-- An example task: integer division, raising on a zero divisor. -/
def divide (a b : Nat) : Except DemoError Nat :=
  if b = 0 then Except.error DemoError.division_by_zero else Except.ok (a / b)

/-- All of `init()` on a pool of one worker: enter, start thread 0, leave. -/
def initOne : List (Action Nat DemoError) :=
  [Action.init, Action.init, Action.init]

/-- One worker, one task: after `init()` and `submit(seven)` the worker passes
the loop test, locks, finds the queue non-empty, dequeues and unlocks; it is
then about to run `func()`. -/
def serveSched : List (Action Nat DemoError) :=
  initOne ++ [Action.submit seven, Action.notify_one none,
    Action.worker 0, Action.worker 0, Action.worker 0, Action.worker 0, Action.worker 0]

/-- An example task that raises: the division of 1 by 0. -/
def failing : Unit → Except DemoError Nat :=
  bind (divide 1) 0

/-- One worker, one raising task: after `init()` and `submit(divide, 1, 0)` the
worker dequeues the wrapper and is about to run `func()`. -/
def failSched : List (Action Nat DemoError) :=
  initOne ++ [Action.submit failing, Action.notify_one none,
    Action.worker 0, Action.worker 0, Action.worker 0, Action.worker 0, Action.worker 0]

/-- After the raising task: the worker finds the queue empty and blocks in
`wait`; a later `submit(seven)` enqueues and its `notify_one` wakes the worker,
which dequeues and runs the task. -/
def serveNext : List (Action Nat DemoError) :=
  [Action.worker 0, Action.worker 0, Action.worker 0, Action.worker 0,
    Action.submit seven, Action.notify_one (some 0),
    Action.worker 0, Action.worker 0, Action.worker 0, Action.worker 0]

/-- After the raising task: the worker runs it, comes back to the loop head,
locks and finds the queue empty; a `submit` then enqueues a task and notifies
nobody; the worker enters `wait`. -/
def strandSched : List (Action Nat DemoError) :=
  failSched ++ [Action.worker 0, Action.worker 0, Action.worker 0, Action.worker 0,
    Action.submit seven, Action.notify_one none, Action.worker 0]

/-- After the raising task: the worker runs it and comes back to the loop head;
a task is submitted; `shutdown()` sets the flag and notifies, the worker sees
the flag and leaves, `shutdown()` joins it and returns. -/
def dropLaterSched : List (Action Nat DemoError) :=
  failSched ++ [Action.worker 0, Action.submit seven, Action.notify_one none,
    Action.shutdown, Action.shutdown, Action.worker 0, Action.shutdown, Action.shutdown]

/-- The lost wakeup: the worker finds the queue empty (line 82); before it
reaches `wait` (line 83) a `submit` enqueues a task and calls `notify_one`,
which finds no waiting thread; then the worker blocks in `wait`. -/
def lostSched : List (Action Nat DemoError) :=
  initOne ++ [Action.worker 0, Action.worker 0, Action.worker 0,
    Action.submit seven, Action.notify_one none, Action.worker 0]

/-- One worker and two tasks: after `init()` and two calls of `submit` the
worker runs one full iteration of its loop (the first task); then `shutdown()`
sets the flag and notifies, the worker sees the flag and leaves, `shutdown()`
joins it and returns.  The second task is still in the queue. -/
def mixedSched : List (Action Nat DemoError) :=
  initOne ++ [Action.submit seven, Action.notify_one none,
    Action.submit seven, Action.notify_one none,
    Action.worker 0, Action.worker 0, Action.worker 0, Action.worker 0, Action.worker 0,
    Action.worker 0,
    Action.shutdown, Action.shutdown, Action.worker 0, Action.shutdown, Action.shutdown]

/-- The scenario of two workers and `m` tasks in which both workers are
scheduled only after `shutdown()` has set the flag: `init()`, `m` calls of
`submit` from one thread, then `shutdown()` up to its return. -/
def dropSched (m : Nat) : List (Action Nat DemoError) :=
  [Action.init, Action.init, Action.init, Action.init] ++
    (List.replicate m [Action.submit seven, Action.notify_one none]).flatten ++
    [Action.shutdown, Action.shutdown, Action.worker 0, Action.worker 1,
      Action.shutdown, Action.shutdown, Action.shutdown]

/-- The shared counter of the increment scenario: the number of runs of
submitted callables. -/
def ThreadPool.counter {V E : Type} (s : ThreadPool V E) : Nat :=
  (s.heap.map PackagedTask.calls).sum

/-! ## SafeQueue: lemmas -/

theorem toInt32_of_lt {n : Nat} (h : n < 2 ^ 31) : toInt32 n = (n : Int) := by
  unfold toInt32
  have h1 : n % 2 ^ 32 = n := Nat.mod_eq_of_lt (by omega)
  rw [h1, if_pos h]

theorem SafeQueue.enqueueAll_m_queue {T : Type} (ts : List T) (q : SafeQueue T) :
    (q.enqueueAll ts).m_queue = q.m_queue ++ ts := by
  induction ts generalizing q with
  | nil => simp [SafeQueue.enqueueAll]
  | cons t ts ih =>
    have h := ih (q.enqueue t)
    simp only [SafeQueue.enqueueAll, List.foldl_cons] at h ⊢
    rw [h]
    simp [SafeQueue.enqueue]

theorem SafeQueue.drain_spec {T : Type} (l : List T) (fuel : Nat) (t0 : T)
    (h : l.length ≤ fuel) :
    SafeQueue.drain fuel ⟨l⟩ t0 =
      (l.map (fun x => (true, x)), (l.getLast?).getD t0, ⟨[]⟩) := by
  induction l generalizing fuel t0 with
  | nil => cases fuel <;> simp [SafeQueue.drain, SafeQueue.queue_empty]
  | cons a l ih =>
    cases fuel with
    | zero => simp at h
    | succ fuel =>
      have hl : l.length ≤ fuel := by simpa using h
      simp only [SafeQueue.drain, SafeQueue.queue_empty, List.isEmpty_cons, SafeQueue.dequeue,
        ih fuel a hl]
      cases l <;> simp [List.getLast?]


/-! ## SafeQueue: the claims -/

/-- C1 (counterexample): on a queue that holds `2^31 - 1` elements, `enqueue`
does not make `queue_size` grow by one: the `int` result wraps from `2147483647`
to `-2147483648`. -/
theorem SafeQueue.queue_size_enqueue_wraps :
    ¬ ((SafeQueue.mk (List.replicate (2 ^ 31 - 1) (0 : Nat))).enqueue 0).queue_size =
        (SafeQueue.mk (List.replicate (2 ^ 31 - 1) (0 : Nat))).queue_size + 1 := by
  have key : ∀ l : List Nat, l.length = 2 ^ 31 - 1 →
      ¬ ((SafeQueue.mk l).enqueue 0).queue_size = (SafeQueue.mk l).queue_size + 1 := by
    intro l hl
    simp only [SafeQueue.queue_size, SafeQueue.enqueue, List.length_append,
      List.length_singleton, hl]
    unfold toInt32
    norm_num
  exact key _ (List.length_replicate _ _)

/-- C1 (amended): SafeQueue is FIFO.  For every queue content `q` and every list
of tasks `ts`, after `enqueue(t1), ..., enqueue(tn)` the consumer loop that
dequeues until the queue is empty (given enough iterations) gets `true` from
every `dequeue` and receives first the elements of `q` in their order, then
`t1, ..., tn` in the order they were enqueued; the queue is then empty and the
next `dequeue` returns `false`.  Each `enqueue` appends at the tail, and it
grows `queue_size` by exactly one whenever the new count fits the `int` result
(at most `2^31 - 1` elements). -/
theorem SafeQueue.fifo {T : Type} (q : SafeQueue T) (ts : List T) (t0 : T) (fuel : Nat)
    (hfuel : (q.m_queue ++ ts).length ≤ fuel) :
    (SafeQueue.drain fuel (q.enqueueAll ts) t0).1 = (q.m_queue ++ ts).map (fun x => (true, x)) ∧
    (SafeQueue.drain fuel (q.enqueueAll ts) t0).2.2.queue_empty = true ∧
    ((SafeQueue.drain fuel (q.enqueueAll ts) t0).2.2.dequeue
        (SafeQueue.drain fuel (q.enqueueAll ts) t0).2.1).1 = false ∧
    (∀ (p : SafeQueue T) (t : T), (p.enqueue t).m_queue = p.m_queue ++ [t] ∧
      (p.m_queue.length + 1 < 2 ^ 31 → (p.enqueue t).queue_size = p.queue_size + 1)) := by
  have hq : q.enqueueAll ts = ⟨q.m_queue ++ ts⟩ := by
    have := SafeQueue.enqueueAll_m_queue ts q
    cases hc : q.enqueueAll ts
    rw [hc] at this
    simpa using this
  rw [hq, SafeQueue.drain_spec _ fuel t0 hfuel]
  refine ⟨rfl, rfl, rfl, ?_⟩
  intro p t
  refine ⟨rfl, ?_⟩
  intro hlen
  simp only [SafeQueue.queue_size, SafeQueue.enqueue, List.length_append, List.length_singleton]
  rw [toInt32_of_lt hlen, toInt32_of_lt (by omega)]
  push_cast
  rfl

/-- C1 (witness): the queue `[1, 2]` after `enqueue(3), enqueue(4)` is drained
as `1, 2, 3, 4`. -/
theorem SafeQueue.fifo_witness :
    (([1, 2] ++ [3, 4] : List Nat).length ≤ 4) ∧
    (SafeQueue.drain 4 ((SafeQueue.mk [1, 2]).enqueueAll [3, 4]) 0).1 =
      [(true, 1), (true, 2), (true, 3), (true, 4)] :=
  ⟨by decide, (SafeQueue.fifo (SafeQueue.mk [1, 2]) [3, 4] 0 4 (by decide)).1⟩

/-- C2 (counterexample): on a queue that holds `2^31` elements a successful
`dequeue` does not make `queue_size` decrease by one: the `int` result goes from
`-2147483648` to `2147483647`. -/
theorem SafeQueue.queue_size_dequeue_wraps :
    ¬ ((SafeQueue.mk ((0 : Nat) :: List.replicate (2 ^ 31 - 1) 0)).dequeue 0).2.2.queue_size =
        (SafeQueue.mk ((0 : Nat) :: List.replicate (2 ^ 31 - 1) 0)).queue_size - 1 := by
  have key : ∀ l : List Nat, l.length = 2 ^ 31 - 1 →
      ¬ ((SafeQueue.mk ((0 : Nat) :: l)).dequeue 0).2.2.queue_size =
        (SafeQueue.mk ((0 : Nat) :: l)).queue_size - 1 := by
    intro l hl
    simp only [SafeQueue.queue_size, SafeQueue.dequeue, List.length_cons, hl]
    unfold toInt32
    norm_num
  exact key _ (List.length_replicate _ _)

/-- C2 (amended): `dequeue(t)` fails iff the queue is empty.  On an empty queue
it returns `false` and leaves the queue and the output slot `t` unchanged.  On a
queue `h :: rest` it returns `true`, sets `t` to `h` and leaves the queue equal
to `rest`; `queue_empty` is then true iff `rest` is empty, and `queue_size` has
decreased by exactly one whenever the count before the call fits the `int`
result (at most `2^31 - 1` elements). -/
theorem SafeQueue.dequeue_spec {T : Type} (q : SafeQueue T) (t : T) :
    ((q.dequeue t).1 = false ↔ q.m_queue = []) ∧
    (q.m_queue = [] → q.dequeue t = (false, t, q)) ∧
    (∀ (h : T) (rest : List T), q.m_queue = h :: rest →
      q.dequeue t = (true, h, ⟨rest⟩) ∧
      ((q.dequeue t).2.2.queue_empty = true ↔ rest = []) ∧
      (rest.length + 1 < 2 ^ 31 → (q.dequeue t).2.2.queue_size = q.queue_size - 1)) := by
  cases q with
  | mk l =>
    cases l with
    | nil => simp [SafeQueue.dequeue]
    | cons a l =>
      refine ⟨by simp [SafeQueue.dequeue], by simp, ?_⟩
      intro h rest heq
      simp only [List.cons.injEq] at heq
      obtain ⟨rfl, rfl⟩ := heq
      refine ⟨rfl, by simp [SafeQueue.dequeue, SafeQueue.queue_empty], ?_⟩
      intro hlen
      simp only [SafeQueue.queue_size, SafeQueue.dequeue, List.length_cons]
      rw [toInt32_of_lt hlen, toInt32_of_lt (by omega)]
      push_cast
      ring

/-- C2 (witness): `dequeue` on `[5, 6]` returns `true`, hands out `5` and leaves
`[6]`, whose size is one less. -/
theorem SafeQueue.dequeue_spec_witness :
    (SafeQueue.mk [5, 6]).dequeue 0 = (true, 5, ⟨[6]⟩) ∧
    ((SafeQueue.mk [5, 6]).dequeue 0).2.2.queue_size = (SafeQueue.mk [5, 6]).queue_size - 1 :=
  ⟨((SafeQueue.dequeue_spec (SafeQueue.mk [5, 6]) 0).2.2 5 [6] rfl).1,
   ((SafeQueue.dequeue_spec (SafeQueue.mk [5, 6]) 0).2.2 5 [6] rfl).2.2 (by decide)⟩


/-! ## The pool: lemmas on lists -/

theorem getElem?_set_cases {α : Type} {l : List α} {i j : Nat} {a b : α}
    (h : (l.set i a)[j]? = some b) : (j = i ∧ b = a) ∨ (j ≠ i ∧ l[j]? = some b) := by
  rw [List.getElem?_set] at h
  by_cases hij : i = j
  · subst hij
    rw [if_pos rfl] at h
    split at h
    · left; exact ⟨rfl, (Option.some.inj h).symm⟩
    · cases h
  · rw [if_neg hij] at h
    right; exact ⟨fun e => hij e.symm, h⟩

theorem countP_set_of_getElem? {α : Type} (p : α → Bool) {l : List α} {i : Nat} {a b : α}
    (h : l[i]? = some a) :
    (l.set i b).countP p + (if p a then 1 else 0) = l.countP p + (if p b then 1 else 0) := by
  induction l generalizing i with
  | nil => simp at h
  | cons x l ih =>
    cases i with
    | zero =>
      simp only [List.getElem?_cons_zero, Option.some.injEq] at h
      subst h
      simp only [List.set_cons_zero, List.countP_cons]
      omega
    | succ i =>
      simp only [List.getElem?_cons_succ] at h
      have := ih h
      simp only [List.set_cons_succ, List.countP_cons]
      omega

/-! ## The pool: the worker step -/

theorem PackagedTask.invoke_of_none {V E : Type} {p : PackagedTask V E} (h : p.state = none) :
    p.invoke =
      ({ p with state := some (p.func ()), calls := p.calls + 1, invoked := p.invoked + 1 },
        true) := by
  unfold PackagedTask.invoke
  split
  · rfl
  · rename_i r hr
    rw [h] at hr
    cases hr

theorem PackagedTask.invoke_of_some {V E : Type} {p : PackagedTask V E} (h : p.state ≠ none) :
    p.invoke = ({ p with invoked := p.invoked + 1 }, false) := by
  unfold PackagedTask.invoke
  split
  · rename_i hr
    exact absurd hr h
  · rfl

theorem ThreadPool.operator_call_graph {V E : Type} {i : Nat} {w w' : ThreadWorker}
    {s p' : ThreadPool V E} (h : ThreadPool.operator_call i w s = some (w', p')) :
    WorkerStep i w s w' p' := by
  unfold ThreadPool.operator_call at h
  split at h
  · cases h
  · rename_i hpc
    split at h <;> rename_i hs <;> cases h
    · exact WorkerStep.exit hpc hs
    · exact WorkerStep.loop hpc (by simpa using hs)
  · rename_i hpc
    split at h <;> rename_i hs <;> cases h
    exact WorkerStep.lock hpc hs
  · rename_i hpc
    split at h <;> rename_i hs <;> cases h
    · exact WorkerStep.isEmpty hpc (by simpa [SafeQueue.queue_empty] using hs)
    · exact WorkerStep.nonEmpty hpc (by simpa [SafeQueue.queue_empty] using hs)
  · rename_i hpc
    cases h
    exact WorkerStep.wait hpc
  · cases h
  · rename_i hpc
    split at h <;> rename_i hs <;> cases h
    exact WorkerStep.relock hpc hs
  · rename_i hpc
    cases hq : s.m_queue.m_queue with
    | nil =>
      simp only [SafeQueue.dequeue, hq, Option.some.injEq, Prod.mk.injEq] at h
      obtain ⟨rfl, rfl⟩ := h
      exact WorkerStep.dequeueFail hpc hq
    | cons x rest =>
      simp only [SafeQueue.dequeue, hq, Option.some.injEq, Prod.mk.injEq] at h
      obtain ⟨rfl, rfl⟩ := h
      exact WorkerStep.dequeueOk hpc x rest hq
  · rename_i hpc
    by_cases hd : w.dequeued = true
    · rw [if_pos hd] at h
      cases h
      exact WorkerStep.unlockRun hpc hd
    · rw [if_neg hd] at h
      cases h
      exact WorkerStep.unlockLoop hpc (by simpa using hd)
  · rename_i hpc
    split at h
    · rename_i hf
      cases h
      exact WorkerStep.runEmpty hpc hf
    · rename_i k hf
      split at h
      · rename_i hk
        cases h
        exact WorkerStep.runDangling hpc k hf hk
      · rename_i p hk
        by_cases hst : p.state = none
        · rw [PackagedTask.invoke_of_none hst] at h
          cases h
          exact WorkerStep.runOk hpc k p hf hk hst
        · rw [PackagedTask.invoke_of_some hst] at h
          cases h
          exact WorkerStep.runTwice hpc k p hf hk hst
  · cases h
  · cases h

theorem ThreadPool.worker_eq_some {V E : Type} {s s' : ThreadPool V E} {i : Nat}
    (h : s.worker i = some s') :
    ∃ w w' p', s.m_threads[i]? = some w ∧ WorkerStep i w s w' p' ∧
      s' = { p' with m_threads := p'.m_threads.set i w' } := by
  unfold ThreadPool.worker at h
  split at h
  · cases h
  · rename_i w hw
    split at h
    · cases h
    · rename_i r hr
      cases h
      exact ⟨w, r.1, r.2, hw, ThreadPool.operator_call_graph hr, rfl⟩

/-! ## The pool: the invariant is preserved by every step -/

variable {V E : Type}

theorem WorkerStep.threads_eq {i : Nat} {w w' : ThreadWorker} {s p' : ThreadPool V E}
    (h : WorkerStep i w s w' p') : p'.m_threads = s.m_threads := by
  cases h <;> rfl

theorem WorkerStep.frame {i : Nat} {w w' : ThreadWorker} {s p' : ThreadPool V E}
    (h : WorkerStep i w s w' p') :
    p'.m_shutdown = s.m_shutdown ∧ p'.phase = s.phase ∧ p'.unnotified = s.unnotified := by
  cases h <;> exact ⟨rfl, rfl, rfl⟩

theorem WorkerStep.thread_effect {i : Nat} {w w' : ThreadWorker} {s p' : ThreadPool V E}
    (h : WorkerStep i w s w' p') :
    w'.joinable = w.joinable ∧ w.pc ≠ Pc.notStarted ∧ w.pc ≠ Pc.terminated ∧
      w'.pc ≠ Pc.notStarted ∧ (w'.pc = Pc.terminated → s.m_shutdown = true ∧ w.pc = Pc.loopHead) ∧
      (w'.pc = Pc.running → w'.dequeued = true) := by
  cases h <;> simp [*]

theorem WorkerStep.mutex_effect {i : Nat} {w w' : ThreadWorker} {s p' : ThreadPool V E}
    (h : WorkerStep i w s w' p') :
    (p'.m_conditional_mutex = s.m_conditional_mutex ∧ w'.pc.holdsMutex = w.pc.holdsMutex) ∨
    (s.m_conditional_mutex = none ∧ p'.m_conditional_mutex = some i ∧
      w.pc.holdsMutex = false ∧ w'.pc.holdsMutex = true) ∨
    (p'.m_conditional_mutex = none ∧ w.pc.holdsMutex = true ∧ w'.pc.holdsMutex = false) := by
  cases h <;> simp [Pc.holdsMutex, *]

theorem Inv.pending_state {s : ThreadPool V E} (hinv : Inv s) {i : Nat} {w : ThreadWorker}
    (hw : s.m_threads[i]? = some w) (hh : w.holdsTask = true) :
    ∃ k p, w.func = Wrapper.task k ∧ s.heap[k]? = some p ∧ p.state = none ∧ p.invoked = 0 := by
  obtain ⟨k, hf, hk⟩ := hinv.pending_task i w hw hh
  obtain ⟨p, hp⟩ : ∃ p, s.heap[k]? = some p := ⟨s.heap[k], List.getElem?_eq_getElem hk⟩
  have htok := hinv.tokens k p hp
  have hpos : 0 < s.m_threads.countP (ThreadWorker.pendingOn k) := by
    rw [List.countP_pos_iff]
    refine ⟨w, (List.mem_iff_getElem?).2 ⟨i, hw⟩, ?_⟩
    simp [ThreadWorker.pendingOn, hh, hf]
  have h0 : p.invoked = 0 := by omega
  exact ⟨k, p, hf, hp, ((hinv.heap_ok k p hp).2.1).2 h0, h0⟩

theorem WorkerStep.token_effect {i : Nat} {w w' : ThreadWorker} {s p' : ThreadPool V E}
    (hinv : Inv s) (hw : s.m_threads[i]? = some w) (h : WorkerStep i w s w' p') :
    (p'.m_queue = s.m_queue ∧ p'.heap = s.heap ∧ w'.holdsTask = w.holdsTask ∧
      w'.func = w.func ∧ w'.pc ≠ Pc.aborted) ∨
    (∃ x rest, s.m_queue.m_queue = x :: rest ∧ p'.m_queue = ⟨rest⟩ ∧ p'.heap = s.heap ∧
      w.holdsTask = false ∧ w'.holdsTask = true ∧ w'.func = x ∧ w'.pc ≠ Pc.aborted) ∨
    (∃ k p, w.holdsTask = true ∧ w.func = Wrapper.task k ∧ s.heap[k]? = some p ∧
      p.state = none ∧ p'.m_queue = s.m_queue ∧
      p'.heap = s.heap.set k
        { p with state := some (p.func ()), calls := p.calls + 1, invoked := p.invoked + 1 } ∧
      w'.holdsTask = false ∧ w'.pc = Pc.loopHead) := by
  cases h with
  | runEmpty hpc hf =>
    obtain ⟨k, p, hf', _⟩ := hinv.pending_state hw (by simp [ThreadWorker.holdsTask, hpc])
    rw [hf] at hf'; cases hf'
  | runDangling hpc k hf hk =>
    obtain ⟨k', p, hf', hp, _⟩ := hinv.pending_state hw (by simp [ThreadWorker.holdsTask, hpc])
    rw [hf] at hf'; cases hf'
    rw [hk] at hp; cases hp
  | runTwice hpc k p hf hk hs =>
    obtain ⟨k', p', hf', hp, hst, _⟩ :=
      hinv.pending_state hw (by simp [ThreadWorker.holdsTask, hpc])
    rw [hf] at hf'; cases hf'
    rw [hk] at hp; cases hp
    exact absurd hst hs
  | runOk hpc k p hf hk hs =>
    right; right
    exact ⟨k, p, by simp [ThreadWorker.holdsTask, hpc], hf, hk, hs, rfl, rfl,
      by simp [ThreadWorker.holdsTask], rfl⟩
  | dequeueOk hpc x rest hq =>
    right; left
    exact ⟨x, rest, hq, rfl, rfl, by simp [ThreadWorker.holdsTask, hpc],
      by simp [ThreadWorker.holdsTask], rfl, by simp⟩
  | _ => left; simp [ThreadWorker.holdsTask, *]

theorem Inv.worker {s s' : ThreadPool V E} {i : Nat} (hinv : Inv s)
    (h : s.worker i = some s') : Inv s' := by
  obtain ⟨w, w', p', hw, hstep, rfl⟩ := ThreadPool.worker_eq_some h
  have hthr := hstep.threads_eq
  obtain ⟨hflag, hphase, -⟩ := hstep.frame
  obtain ⟨hjoin, hns, hnt, hns', hterm, hrun⟩ := hstep.thread_effect
  have hmut := hstep.mutex_effect
  have htok := hstep.token_effect hinv hw
  have hwm := hinv.mutex_of_holds i w hw
  have hlt : i < s.m_threads.length := (List.getElem?_eq_some.1 hw).1
  have hself : (s.m_threads.set i w')[i]? = some w' := List.getElem?_set_self hlt
  have hheaplen : p'.heap.length = s.heap.length := by
    rcases htok with ⟨-, hh, -⟩ | ⟨x, rest, -, -, hh, -⟩ | ⟨k, p, -, -, -, -, -, hh, -⟩ <;>
      simp [hh]
  refine ⟨?_, ?_, ?_, ?_, ?_, ?_, ?_, ?_, ?_, ?_, ?_, ?_, ?_⟩
  · -- mutex_of_holds
    intro j v hv hh
    simp only [hthr] at hv
    show p'.m_conditional_mutex = some j
    rcases getElem?_set_cases hv with ⟨rfl, rfl⟩ | ⟨hne, hv'⟩
    · rcases hmut with ⟨h1, h2⟩ | ⟨-, h1, -, -⟩ | ⟨-, -, h2⟩
      · rw [h1]; exact hwm (by rw [← h2]; exact hh)
      · exact h1
      · rw [hh] at h2; cases h2
    · have hvj := hinv.mutex_of_holds j v hv' hh
      rcases hmut with ⟨h1, -⟩ | ⟨h0, -, -, -⟩ | ⟨-, h2, -⟩
      · rw [h1]; exact hvj
      · rw [h0] at hvj; cases hvj
      · have := hwm h2
        rw [this] at hvj
        exact absurd (Option.some.inj hvj).symm hne
  · -- holds_of_mutex
    intro j hj
    simp only [hthr]
    change p'.m_conditional_mutex = some j at hj
    rcases hmut with ⟨h1, h2⟩ | ⟨-, h1, -, h2⟩ | ⟨h1, -, -⟩
    · rw [h1] at hj
      obtain ⟨v, hv, hvh⟩ := hinv.holds_of_mutex j hj
      by_cases hji : j = i
      · subst hji
        rw [hw] at hv; cases hv
        exact ⟨w', hself, by rw [h2]; exact hvh⟩
      · exact ⟨v, by rw [List.getElem?_set_ne (fun e => hji e.symm)]; exact hv, hvh⟩
    · rw [h1] at hj; cases hj
      exact ⟨w', hself, h2⟩
    · rw [h1] at hj; cases hj
  · -- queue_tasks
    intro x hx
    change x ∈ p'.m_queue.m_queue at hx
    show ∃ k, x = Wrapper.task k ∧ k < p'.heap.length
    rw [hheaplen]
    rcases htok with ⟨hq, -⟩ | ⟨y, rest, hq, hq', -⟩ | ⟨k, p, -, -, -, -, hq, -⟩
    · rw [hq] at hx; exact hinv.queue_tasks x hx
    · rw [hq'] at hx
      exact hinv.queue_tasks x (by rw [hq]; exact List.mem_cons_of_mem _ hx)
    · rw [hq] at hx; exact hinv.queue_tasks x hx
  · -- pending_task
    intro j v hv hh
    simp only [hthr] at hv
    show ∃ k, v.func = Wrapper.task k ∧ k < p'.heap.length
    rw [hheaplen]
    rcases getElem?_set_cases hv with ⟨rfl, rfl⟩ | ⟨hne, hv'⟩
    · rcases htok with ⟨-, -, h1, h2, -⟩ | ⟨y, rest, hq, -, -, -, -, h2, -⟩ |
        ⟨k, p, -, -, -, -, -, -, h1, -⟩
      · rw [h2]; exact hinv.pending_task _ w hw (by rw [← h1]; exact hh)
      · rw [h2]; exact hinv.queue_tasks y (by rw [hq]; exact List.mem_cons_self _ _)
      · rw [hh] at h1; cases h1
    · exact hinv.pending_task j v hv' hh
  · -- running_dequeued
    intro j v hv hpc
    simp only [hthr] at hv
    rcases getElem?_set_cases hv with ⟨rfl, rfl⟩ | ⟨hne, hv'⟩
    · exact hrun hpc
    · exact hinv.running_dequeued j v hv' hpc
  · -- tokens
    intro k p hp
    change p'.heap[k]? = some p at hp
    show p'.m_queue.m_queue.count (Wrapper.task k) +
      (p'.m_threads.set i w').countP (ThreadWorker.pendingOn k) + p.invoked = 1
    rw [hthr]
    have hcnt := countP_set_of_getElem? (ThreadWorker.pendingOn k) (b := w') hw
    rcases htok with ⟨hq, hh, h1, h2, -⟩ | ⟨y, rest, hq, hq', hh, h1, h2, h3, -⟩ |
      ⟨k0, p0, h1, hf, hk0, -, hq, hh, h2, -⟩
    · have hsame : ThreadWorker.pendingOn k w' = ThreadWorker.pendingOn k w := by
        simp [ThreadWorker.pendingOn, h1, h2]
      rw [hsame] at hcnt
      rw [hh] at hp
      have := hinv.tokens k p hp
      rw [hq]
      omega
    · rw [hh] at hp
      have := hinv.tokens k p hp
      rw [hq, List.count_cons] at this
      have hw0 : ThreadWorker.pendingOn k w = false := by simp [ThreadWorker.pendingOn, h1]
      have hw1 : ThreadWorker.pendingOn k w' = decide (y = Wrapper.task k) := by
        simp [ThreadWorker.pendingOn, h2, h3]
      rw [hw0, hw1] at hcnt
      rw [hq']
      by_cases hy : y = Wrapper.task k
      · simp [hy] at hcnt this ⊢; omega
      · have hy' : ¬ (y == Wrapper.task k) = true := by simpa using hy
        simp [hy, hy'] at hcnt this ⊢; omega
    · rw [hq]
      rw [hh] at hp
      have hw1 : ThreadWorker.pendingOn k w' = false := by simp [ThreadWorker.pendingOn, h2]
      rcases getElem?_set_cases hp with ⟨rfl, rfl⟩ | ⟨hne, hp'⟩
      · have := hinv.tokens k p0 hk0
        have hw0 : ThreadWorker.pendingOn k w = true := by simp [ThreadWorker.pendingOn, h1, hf]
        rw [hw0, hw1] at hcnt
        simp only [if_true, Bool.false_eq_true, if_false] at hcnt
        show _ + _ + (p0.invoked + 1) = 1
        omega
      · have := hinv.tokens k p hp'
        have hne' : ¬ k0 = k := fun e => hne e.symm
        have hw0 : ThreadWorker.pendingOn k w = false := by
          simp [ThreadWorker.pendingOn, hf, hne']
        rw [hw0, hw1] at hcnt
        omega
  · -- heap_ok
    intro k p hp
    change p'.heap[k]? = some p at hp
    rcases htok with ⟨-, hh, -⟩ | ⟨y, rest, -, -, hh, -⟩ | ⟨k0, p0, -, -, hk0, hs0, -, hh, -⟩
    · rw [hh] at hp; exact hinv.heap_ok k p hp
    · rw [hh] at hp; exact hinv.heap_ok k p hp
    · rw [hh] at hp
      rcases getElem?_set_cases hp with ⟨rfl, rfl⟩ | ⟨hne, hp'⟩
      · obtain ⟨hc, hz, -⟩ := hinv.heap_ok k p0 hk0
        have h0 := hz.1 hs0
        refine ⟨by simp [hc], by simp, ?_⟩
        intro r hr
        simp only [Option.some.injEq] at hr
        exact hr.symm
      · exact hinv.heap_ok k p hp'
  · -- not_aborted
    intro j v hv
    simp only [hthr] at hv
    rcases getElem?_set_cases hv with ⟨rfl, rfl⟩ | ⟨hne, hv'⟩
    · rcases htok with ⟨-, -, -, -, h⟩ | ⟨y, rest, -, -, -, -, -, -, h⟩ |
        ⟨k0, p0, -, -, -, -, -, -, -, h⟩
      · exact h
      · exact h
      · rw [h]; simp
    · exact hinv.not_aborted j v hv'
  · -- terminated_flag
    intro j v hv hpc
    simp only [hthr] at hv
    show p'.m_shutdown = true
    rw [hflag]
    rcases getElem?_set_cases hv with ⟨rfl, rfl⟩ | ⟨hne, hv'⟩
    · exact (hterm hpc).1
    · exact hinv.terminated_flag j v hv' hpc
  · -- joined
    intro j v hv
    simp only [hthr] at hv
    rcases getElem?_set_cases hv with ⟨rfl, rfl⟩ | ⟨hne, hv'⟩
    · obtain ⟨h1, h2⟩ := hinv.joined _ w hw
      refine ⟨fun hj => ?_, fun hn => absurd hn hns'⟩
      rcases h1 (by rw [← hjoin]; exact hj) with h | h
      · exact absurd h hns
      · exact absurd h hnt
    · exact hinv.joined j v hv'
  · -- flag_set
    intro hp
    show p'.m_shutdown = true
    rw [hflag]
    apply hinv.flag_set
    change p'.phase = _ ∨ (∃ j, p'.phase = _) ∨ p'.phase = _ at hp
    rw [hphase] at hp
    exact hp
  · -- joined_prefix
    intro j hp k v hk hv
    change p'.phase = _ at hp
    rw [hphase] at hp
    simp only [hthr] at hv
    rcases getElem?_set_cases hv with ⟨rfl, rfl⟩ | ⟨hne, hv'⟩
    · rw [hjoin]; exact hinv.joined_prefix j hp _ w hk hw
    · exact hinv.joined_prefix j hp k v hk hv'
  · -- joined_all
    intro hp k v hv
    change p'.phase = _ at hp
    rw [hphase] at hp
    simp only [hthr] at hv
    rcases getElem?_set_cases hv with ⟨rfl, rfl⟩ | ⟨hne, hv'⟩
    · rw [hjoin]; exact hinv.joined_all hp _ w hw
    · exact hinv.joined_all hp k v hv'

theorem Inv.set_unnotified {s : ThreadPool V E} (hinv : Inv s) (n : Nat) :
    Inv { s with unnotified := n } :=
  ⟨hinv.mutex_of_holds, hinv.holds_of_mutex, hinv.queue_tasks, hinv.pending_task,
    hinv.running_dequeued, hinv.tokens, hinv.heap_ok, hinv.not_aborted, hinv.terminated_flag, hinv.joined,
    hinv.flag_set, hinv.joined_prefix, hinv.joined_all⟩

theorem Inv.set_phase_early {s : ThreadPool V E} (hinv : Inv s) (ph : Phase)
    (h1 : ph ≠ Phase.shutNotify) (h2 : ∀ j, ph ≠ Phase.joinLoop j) (h3 : ph ≠ Phase.returned) :
    Inv { s with phase := ph } :=
  ⟨hinv.mutex_of_holds, hinv.holds_of_mutex, hinv.queue_tasks, hinv.pending_task,
    hinv.running_dequeued, hinv.tokens, hinv.heap_ok, hinv.not_aborted, hinv.terminated_flag, hinv.joined,
    fun h => by
      rcases h with h | ⟨j, h⟩ | h
      · exact absurd h h1
      · exact absurd h (h2 j)
      · exact absurd h h3,
    fun j h => absurd h (h2 j), fun h => absurd h h3⟩

theorem Inv.set_thread {s : ThreadPool V E} (hinv : Inv s) {i : Nat} {w : ThreadWorker}
    (hw : s.m_threads[i]? = some w) (w' : ThreadWorker)
    (hm : w.pc.holdsMutex = false) (hm' : w'.pc.holdsMutex = false)
    (ht : w.holdsTask = false) (ht' : w'.holdsTask = false)
    (hab : w'.pc ≠ Pc.aborted) (hterm : w'.pc = Pc.terminated → s.m_shutdown = true)
    (hj : (w'.joinable = false → w'.pc = Pc.notStarted ∨ w'.pc = Pc.terminated) ∧
      (w'.pc = Pc.notStarted → w'.joinable = false))
    (hjp : ((∀ j, s.phase ≠ Phase.joinLoop j) ∧ s.phase ≠ Phase.returned) ∨
      (w.joinable = false → w'.joinable = false)) :
    Inv { s with m_threads := s.m_threads.set i w' } := by
  have hlt : i < s.m_threads.length := (List.getElem?_eq_some.1 hw).1
  have hself : (s.m_threads.set i w')[i]? = some w' := List.getElem?_set_self hlt
  have hrun' : w'.pc ≠ Pc.running := by
    intro h
    simp [ThreadWorker.holdsTask, h] at ht'
  refine ⟨?_, ?_, hinv.queue_tasks, ?_, ?_, ?_, hinv.heap_ok, ?_, ?_, ?_, hinv.flag_set, ?_, ?_⟩
  · intro j v hv hh
    rcases getElem?_set_cases hv with ⟨rfl, rfl⟩ | ⟨hne, hv'⟩
    · rw [hh] at hm'; cases hm'
    · exact hinv.mutex_of_holds j v hv' hh
  · intro j hj'
    obtain ⟨v, hv, hvh⟩ := hinv.holds_of_mutex j hj'
    by_cases hji : j = i
    · subst hji
      rw [hw] at hv; cases hv
      rw [hvh] at hm; cases hm
    · exact ⟨v, by
        show (s.m_threads.set i w')[j]? = some v
        rw [List.getElem?_set_ne (fun e => hji e.symm)]; exact hv, hvh⟩
  · intro j v hv hh
    rcases getElem?_set_cases hv with ⟨rfl, rfl⟩ | ⟨hne, hv'⟩
    · rw [hh] at ht'; cases ht'
    · exact hinv.pending_task j v hv' hh
  · intro j v hv hpc
    rcases getElem?_set_cases hv with ⟨rfl, rfl⟩ | ⟨hne, hv'⟩
    · exact absurd hpc hrun'
    · exact hinv.running_dequeued j v hv' hpc
  · intro k p hp
    have hcnt := countP_set_of_getElem? (ThreadWorker.pendingOn k) (b := w') hw
    have hw0 : ThreadWorker.pendingOn k w = false := by simp [ThreadWorker.pendingOn, ht]
    have hw1 : ThreadWorker.pendingOn k w' = false := by simp [ThreadWorker.pendingOn, ht']
    rw [hw0, hw1] at hcnt
    have := hinv.tokens k p hp
    show s.m_queue.m_queue.count (Wrapper.task k) +
      (s.m_threads.set i w').countP (ThreadWorker.pendingOn k) + p.invoked = 1
    simp only [Bool.false_eq_true, if_false] at hcnt
    omega
  · intro j v hv
    rcases getElem?_set_cases hv with ⟨rfl, rfl⟩ | ⟨hne, hv'⟩
    · exact hab
    · exact hinv.not_aborted j v hv'
  · intro j v hv hpc
    rcases getElem?_set_cases hv with ⟨rfl, rfl⟩ | ⟨hne, hv'⟩
    · exact hterm hpc
    · exact hinv.terminated_flag j v hv' hpc
  · intro j v hv
    rcases getElem?_set_cases hv with ⟨rfl, rfl⟩ | ⟨hne, hv'⟩
    · exact hj
    · exact hinv.joined j v hv'
  · intro j hp k v hk hv
    rcases getElem?_set_cases hv with ⟨rfl, rfl⟩ | ⟨hne, hv'⟩
    · rcases hjp with ⟨h, -⟩ | h
      · exact absurd hp (h j)
      · exact h (hinv.joined_prefix j hp _ w hk hw)
    · exact hinv.joined_prefix j hp k v hk hv'
  · intro hp k v hv
    rcases getElem?_set_cases hv with ⟨rfl, rfl⟩ | ⟨hne, hv'⟩
    · rcases hjp with ⟨-, h⟩ | h
      · exact absurd hp h
      · exact h (hinv.joined_all hp _ w hw)
    · exact hinv.joined_all hp k v hv'

theorem Inv.wake_one {s : ThreadPool V E} (hinv : Inv s) {i : Nat} {w : ThreadWorker}
    (hw : s.m_threads[i]? = some w) (hpc : w.pc = Pc.waiting) :
    Inv { s with m_threads := s.m_threads.set i { w with pc := Pc.woken } } := by
  have hj := hinv.joined i w hw
  refine hinv.set_thread hw _ (by simp [hpc, Pc.holdsMutex]) (by simp [Pc.holdsMutex])
    (by simp [ThreadWorker.holdsTask, hpc]) (by simp [ThreadWorker.holdsTask]) (by simp)
    (by simp) ⟨fun h => ?_, fun h => by simp at h⟩ (Or.inr fun h => h)
  rcases hj.1 h with h' | h' <;> rw [hpc] at h' <;> cases h'

theorem Inv.spurious {s s' : ThreadPool V E} {i : Nat} (hinv : Inv s)
    (h : s.spurious i = some s') : Inv s' := by
  unfold ThreadPool.spurious at h
  split at h
  · rename_i w hw
    split at h
    · rename_i hpc
      cases h
      exact hinv.wake_one hw hpc
    · cases h
  · cases h

theorem Inv.notify_one {s s' : ThreadPool V E} {i : Option Nat} (hinv : Inv s)
    (h : s.notify_one i = some s') : Inv s' := by
  unfold ThreadPool.notify_one at h
  split at h
  · cases h
  · split at h
    · split at h
      · cases h
        exact hinv.set_unnotified _
      · cases h
    · rename_i j
      split at h
      · rename_i w hw
        split at h
        · rename_i hpc
          cases h
          exact (hinv.wake_one hw hpc).set_unnotified _
        · cases h
      · cases h

theorem Inv.init {s s' : ThreadPool V E} (hinv : Inv s) (h : s.init = some s') : Inv s' := by
  unfold ThreadPool.init at h
  split at h
  · rename_i i hph
    split at h
    · split at h
      · rename_i w hw
        split at h
        · cases h
        · rename_i hjn
          cases h
          have hjn' : w.joinable = false := by simpa using hjn
          have hpc := (hinv.joined i w hw).1 hjn'
          have hinv' := hinv.set_thread hw ⟨Pc.loopHead, Wrapper.empty, false, true⟩
            (by rcases hpc with h | h <;> simp [h, Pc.holdsMutex]) (by simp [Pc.holdsMutex])
            (by rcases hpc with h | h <;> simp [ThreadWorker.holdsTask, h])
            (by simp [ThreadWorker.holdsTask]) (by simp) (by simp) ⟨by simp, by simp⟩
            (Or.inl ⟨by simp [hph], by simp [hph]⟩)
          exact hinv'.set_phase_early _ (by simp) (by simp) (by simp)
      · cases h
    · cases h
      exact hinv.set_phase_early _ (by simp) (by simp) (by simp)
  · cases h
  · cases h
  · cases h
    exact hinv.set_phase_early _ (by simp) (by simp) (by simp)

theorem Inv.set_phase {s : ThreadPool V E} (hinv : Inv s) (ph : Phase) (flag : Bool)
    (hflag : flag = true ∨ (flag = s.m_shutdown ∧ ph ≠ Phase.shutNotify ∧
      (∀ j, ph ≠ Phase.joinLoop j) ∧ ph ≠ Phase.returned) ∨
      (flag = s.m_shutdown ∧ s.m_shutdown = true))
    (hpre : ∀ j, ph = Phase.joinLoop j →
      ∀ (i : Nat) (w : ThreadWorker), i < j → s.m_threads[i]? = some w → w.joinable = false)
    (hall : ph = Phase.returned →
      ∀ (i : Nat) (w : ThreadWorker), s.m_threads[i]? = some w → w.joinable = false) :
    Inv { s with m_shutdown := flag, phase := ph } :=
  ⟨hinv.mutex_of_holds, hinv.holds_of_mutex, hinv.queue_tasks, hinv.pending_task,
    hinv.running_dequeued, hinv.tokens, hinv.heap_ok, hinv.not_aborted, (fun i w hw hpc => by
      have := hinv.terminated_flag i w hw hpc
      show flag = true
      rcases hflag with hf | ⟨hf, -⟩ | ⟨hf, -⟩
      · exact hf
      · rw [hf]; exact this
      · rw [hf]; exact this), hinv.joined,
    fun h => by
      show flag = true
      rcases hflag with hf | ⟨-, h1, h2, h3⟩ | ⟨hf, ht⟩
      · exact hf
      · rcases h with h | ⟨j, h⟩ | h
        · exact absurd h h1
        · exact absurd h (h2 j)
        · exact absurd h h3
      · rw [hf]; exact ht,
    hpre, hall⟩

theorem wake_props (u : ThreadWorker) :
    (ThreadPool.wake u).pc.holdsMutex = u.pc.holdsMutex ∧ (ThreadPool.wake u).holdsTask = u.holdsTask ∧
    (ThreadPool.wake u).func = u.func ∧ (ThreadPool.wake u).joinable = u.joinable ∧ (ThreadPool.wake u).dequeued = u.dequeued ∧
    ((ThreadPool.wake u).pc = Pc.notStarted ↔ u.pc = Pc.notStarted) ∧
    ((ThreadPool.wake u).pc = Pc.terminated ↔ u.pc = Pc.terminated) ∧
    ((ThreadPool.wake u).pc = Pc.aborted ↔ u.pc = Pc.aborted) ∧
    ((ThreadPool.wake u).pc = Pc.running ↔ u.pc = Pc.running) ∧ (ThreadPool.wake u).pc ≠ Pc.waiting := by
  unfold ThreadPool.wake
  split
  · rename_i h
    simp [h, Pc.holdsMutex, ThreadWorker.holdsTask]
  · rename_i h
    simp [h]

theorem Inv.notify_all {s : ThreadPool V E} (hinv : Inv s) :
    Inv { s with m_threads := s.m_threads.map ThreadPool.wake } := by
  have hget : ∀ (j : Nat) (v : ThreadWorker), (s.m_threads.map ThreadPool.wake)[j]? = some v →
      ∃ u, s.m_threads[j]? = some u ∧ v = ThreadPool.wake u := by
    intro j v hv
    rw [List.getElem?_map] at hv
    cases hu : s.m_threads[j]? with
    | none => rw [hu] at hv; cases hv
    | some u =>
      rw [hu] at hv
      exact ⟨u, rfl, (Option.some.inj hv).symm⟩
  refine ⟨?_, ?_, hinv.queue_tasks, ?_, ?_, ?_, hinv.heap_ok, ?_, ?_, ?_, hinv.flag_set, ?_, ?_⟩
  · intro j v hv hh
    obtain ⟨u, hu, rfl⟩ := hget j v hv
    exact hinv.mutex_of_holds j u hu (by rw [← (wake_props u).1]; exact hh)
  · intro j hj
    obtain ⟨u, hu, huh⟩ := hinv.holds_of_mutex j hj
    refine ⟨ThreadPool.wake u, ?_, by rw [(wake_props u).1]; exact huh⟩
    show (s.m_threads.map ThreadPool.wake)[j]? = some (ThreadPool.wake u)
    rw [List.getElem?_map, hu]; rfl
  · intro j v hv hh
    obtain ⟨u, hu, rfl⟩ := hget j v hv
    rw [(wake_props u).2.2.1]
    exact hinv.pending_task j u hu (by rw [← (wake_props u).2.1]; exact hh)
  · intro j v hv hpc
    obtain ⟨u, hu, rfl⟩ := hget j v hv
    rw [(wake_props u).2.2.2.2.1]
    exact hinv.running_dequeued j u hu ((wake_props u).2.2.2.2.2.2.2.2.1.1 hpc)
  · intro k p hp
    have hfun : (ThreadWorker.pendingOn k ∘ ThreadPool.wake) = ThreadWorker.pendingOn k := by
      funext u
      simp [ThreadWorker.pendingOn, (wake_props u).2.1, (wake_props u).2.2.1]
    show s.m_queue.m_queue.count (Wrapper.task k) +
      (s.m_threads.map ThreadPool.wake).countP (ThreadWorker.pendingOn k) + p.invoked = 1
    rw [List.countP_map, hfun]
    exact hinv.tokens k p hp
  · intro j v hv
    obtain ⟨u, hu, rfl⟩ := hget j v hv
    intro h
    exact hinv.not_aborted j u hu ((wake_props u).2.2.2.2.2.2.2.1.1 h)
  · intro j v hv hpc
    obtain ⟨u, hu, rfl⟩ := hget j v hv
    exact hinv.terminated_flag j u hu ((wake_props u).2.2.2.2.2.2.1.1 hpc)
  · intro j v hv
    obtain ⟨u, hu, rfl⟩ := hget j v hv
    obtain ⟨h1, h2⟩ := hinv.joined j u hu
    obtain ⟨-, -, -, hj, -, hns, hte, -⟩ := wake_props u
    refine ⟨fun h => ?_, fun h => ?_⟩
    · rcases h1 (by rw [← hj]; exact h) with h' | h'
      · exact Or.inl (hns.2 h')
      · exact Or.inr (hte.2 h')
    · rw [hj]; exact h2 (hns.1 h)
  · intro j hp k v hk hv
    obtain ⟨u, hu, rfl⟩ := hget k v hv
    rw [(wake_props u).2.2.2.1]
    exact hinv.joined_prefix j hp k u hk hu
  · intro hp k v hv
    obtain ⟨u, hu, rfl⟩ := hget k v hv
    rw [(wake_props u).2.2.2.1]
    exact hinv.joined_all hp k u hu

theorem Inv.shutdown {s s' : ThreadPool V E} (hinv : Inv s) (h : s.shutdown = some s') :
    Inv s' := by
  unfold ThreadPool.shutdown at h
  split at h
  · cases h
  · rename_i hph
    cases h
    have hf : s.m_shutdown = true := hinv.flag_set (Or.inl hph)
    have h1 := hinv.notify_all
    have h2 := h1.set_phase (Phase.joinLoop 0) s.m_shutdown (Or.inr (Or.inr ⟨rfl, hf⟩))
      (fun j hj i w hi => by
        simp only [Phase.joinLoop.injEq] at hj
        omega)
      (fun hr => by cases hr)
    exact h2
  · rename_i i hph
    have hf : s.m_shutdown = true := hinv.flag_set (Or.inr (Or.inl ⟨i, hph⟩))
    split at h
    · split at h
      · rename_i w hw
        split at h
        · rename_i hjn
          split at h
          · rename_i hpc
            cases h
            have h1 := hinv.set_thread hw { w with joinable := false }
              (by simp [hpc, Pc.holdsMutex]) (by simp [hpc, Pc.holdsMutex])
              (by simp [ThreadWorker.holdsTask, hpc]) (by simp [ThreadWorker.holdsTask, hpc])
              (by simp [hpc]) (fun _ => hf) ⟨fun _ => Or.inr hpc, fun _ => rfl⟩
              (Or.inr fun _ => rfl)
            have h2 := h1.set_phase (Phase.joinLoop (i + 1)) s.m_shutdown
              (Or.inr (Or.inr ⟨rfl, hf⟩))
              (fun j hj k v hk hv => by
                simp only [Phase.joinLoop.injEq] at hj
                subst hj
                rcases getElem?_set_cases hv with ⟨rfl, rfl⟩ | ⟨hne, hv'⟩
                · rfl
                · exact hinv.joined_prefix i hph k v (by omega) hv')
              (fun hr => by cases hr)
            exact h2
          · cases h
        · rename_i hjn
          cases h
          have hjn' : w.joinable = false := by simpa using hjn
          have h2 := hinv.set_phase (Phase.joinLoop (i + 1)) s.m_shutdown
              (Or.inr (Or.inr ⟨rfl, hf⟩))
              (fun j hj k v hk hv => by
                simp only [Phase.joinLoop.injEq] at hj
                subst hj
                by_cases hki : k = i
                · subst hki
                  rw [hw] at hv; cases hv
                  exact hjn'
                · exact hinv.joined_prefix i hph k v (by omega) hv)
              (fun hr => by cases hr)
          exact h2
      · cases h
    · rename_i hlen
      cases h
      have h2 := hinv.set_phase Phase.returned s.m_shutdown (Or.inr (Or.inr ⟨rfl, hf⟩))
        (fun j hj => by cases hj)
        (fun _ k v hv => hinv.joined_prefix i hph k v
          (by have := (List.getElem?_eq_some.1 hv).1; omega) hv)
      exact h2
  · rename_i hne1 hne2 hne3
    cases h
    exact hinv.set_phase Phase.shutNotify true (Or.inl rfl) (fun j hj => by cases hj)
      (fun hr => by cases hr)

theorem Inv.submit {s : ThreadPool V E} (hinv : Inv s) (func : Unit → Except E V) :
    Inv (s.submit func) := by
  unfold ThreadPool.submit
  refine ⟨hinv.mutex_of_holds, hinv.holds_of_mutex, ?_, ?_, hinv.running_dequeued, ?_, ?_,
    hinv.not_aborted, hinv.terminated_flag, hinv.joined, hinv.flag_set, hinv.joined_prefix,
    hinv.joined_all⟩
  · intro x hx
    simp only [SafeQueue.enqueue, List.mem_append, List.mem_singleton] at hx
    simp only [List.length_append, List.length_singleton]
    rcases hx with hx | rfl
    · obtain ⟨k, hk, hlt⟩ := hinv.queue_tasks x hx
      exact ⟨k, hk, by omega⟩
    · exact ⟨_, rfl, by omega⟩
  · intro i w hw hh
    obtain ⟨k, hk, hlt⟩ := hinv.pending_task i w hw hh
    simp only [List.length_append, List.length_singleton]
    exact ⟨k, hk, by omega⟩
  · intro k p hp
    simp only [SafeQueue.enqueue, List.count_append]
    change (s.heap ++ [⟨func, none, 0, 0⟩])[k]? = some p at hp
    by_cases hk : k < s.heap.length
    · rw [List.getElem?_append_left hk] at hp
      have := hinv.tokens k p hp
      have hne : ¬ s.heap.length = k := by omega
      simp only [List.count_cons, List.count_nil, beq_iff_eq, Wrapper.task.injEq, hne,
        if_false]
      omega
    · have hk' : s.heap.length ≤ k := by omega
      rw [List.getElem?_append_right hk'] at hp
      have hk0 : k = s.heap.length := by
        by_contra hne
        have : k - s.heap.length = (k - s.heap.length - 1) + 1 := by omega
        rw [this] at hp
        simp at hp
      subst hk0
      simp only [Nat.sub_self, List.getElem?_cons_zero, Option.some.injEq] at hp
      subst hp
      have hq : s.m_queue.m_queue.count (Wrapper.task s.heap.length) = 0 := by
        rw [List.count_eq_zero]
        intro hmem
        obtain ⟨k, hk, hlt⟩ := hinv.queue_tasks _ hmem
        simp only [Wrapper.task.injEq] at hk
        omega
      have hc : s.m_threads.countP (ThreadWorker.pendingOn s.heap.length) = 0 := by
        rw [List.countP_eq_zero]
        intro w hmem hpend
        obtain ⟨i, hi⟩ := List.mem_iff_getElem?.1 hmem
        simp only [ThreadWorker.pendingOn, Bool.and_eq_true, decide_eq_true_eq] at hpend
        obtain ⟨k, hk, hlt⟩ := hinv.pending_task i w hi hpend.1
        rw [hpend.2] at hk
        simp only [Wrapper.task.injEq] at hk
        omega
      simp [hq, hc]
  · intro k p hp
    change (s.heap ++ [⟨func, none, 0, 0⟩])[k]? = some p at hp
    by_cases hk : k < s.heap.length
    · rw [List.getElem?_append_left hk] at hp
      exact hinv.heap_ok k p hp
    · have hk' : s.heap.length ≤ k := by omega
      rw [List.getElem?_append_right hk'] at hp
      have hk0 : k = s.heap.length := by
        by_contra hne
        have : k - s.heap.length = (k - s.heap.length - 1) + 1 := by omega
        rw [this] at hp
        simp at hp
      subst hk0
      simp only [Nat.sub_self, List.getElem?_cons_zero, Option.some.injEq] at hp
      subst hp
      simp

theorem Inv.construct {n : Int} {s : ThreadPool V E}
    (h : ThreadPool.construct n = some s) : Inv s := by
  unfold ThreadPool.construct at h
  split at h
  · cases h
    have hget : ∀ (i : Nat) (w : ThreadWorker),
        (List.replicate n.toNat (⟨Pc.notStarted, Wrapper.empty, false, false⟩ : ThreadWorker))[i]?
          = some w → w = ⟨Pc.notStarted, Wrapper.empty, false, false⟩ := by
      intro i w hw
      rw [List.getElem?_replicate] at hw
      split at hw
      · exact (Option.some.inj hw).symm
      · cases hw
    refine ⟨?_, ?_, ?_, ?_, ?_, ?_, ?_, ?_, ?_, ?_, ?_, ?_, ?_⟩
    · intro i w hw hh
      rw [hget i w hw] at hh
      simp [Pc.holdsMutex] at hh
    · intro i hi
      cases hi
    · intro x hx
      simp [SafeQueue.empty] at hx
    · intro i w hw hh
      rw [hget i w hw] at hh
      simp [ThreadWorker.holdsTask] at hh
    · intro i w hw hpc
      rw [hget i w hw] at hpc
      cases hpc
    · intro k p hp
      simp at hp
    · intro k p hp
      simp at hp
    · intro i w hw
      rw [hget i w hw]
      simp
    · intro i w hw hpc
      rw [hget i w hw] at hpc
      cases hpc
    · intro i w hw
      rw [hget i w hw]
      simp
    · intro hp
      simp at hp
    · intro j hp
      cases hp
    · intro hp
      cases hp
  · cases h

theorem Inv.step {s s' : ThreadPool V E} {a : Action V E} (hinv : Inv s)
    (h : s.step a = some s') : Inv s' := by
  cases a with
  | init => exact hinv.init h
  | shutdown => exact hinv.shutdown h
  | submit func =>
    simp only [ThreadPool.step, Option.some.injEq] at h
    subst h
    exact hinv.submit func
  | notify_one i => exact hinv.notify_one h
  | worker i => exact hinv.worker h
  | spurious i => exact hinv.spurious h

theorem Reachable.inv {n : Int} {s : ThreadPool V E} (h : Reachable n s) : Inv s := by
  induction h with
  | construct hc => exact Inv.construct hc
  | step a _ hs ih => exact ih.step hs

/-! ## Runs and reachability -/

theorem Reachable.steps {n : Int} {s s2 : ThreadPool V E} (h : Reachable n s)
    (hs : Steps s s2) : Reachable n s2 := by
  induction hs with
  | refl => exact h
  | step a _ hstep ih => exact Reachable.step a ih hstep

theorem Steps.trans {s1 s2 s3 : ThreadPool V E} (h12 : Steps s1 s2) (h23 : Steps s2 s3) :
    Steps s1 s3 := by
  induction h23 with
  | refl => exact h12
  | step a _ hstep ih => exact Steps.step a ih hstep

theorem Steps.of_run {s s2 : ThreadPool V E} (sched : List (Action V E))
    (h : s.run sched = some s2) : Steps s s2 := by
  induction sched generalizing s with
  | nil =>
    simp only [ThreadPool.run, Option.some.injEq] at h
    subst h
    exact Steps.refl s
  | cons a rest ih =>
    unfold ThreadPool.run at h
    split at h
    · rename_i s1 hs1
      exact Steps.trans (Steps.step a (Steps.refl s) hs1) (ih h)
    · cases h

theorem Reachable.of_runFrom {n : Int} {s : ThreadPool V E} (sched : List (Action V E))
    (h : ThreadPool.runFrom n sched = some s) : Reachable n s := by
  unfold ThreadPool.runFrom at h
  split at h
  · rename_i s0 hs0
    exact (Reachable.construct hs0).steps (Steps.of_run sched h)
  · cases h

theorem ThreadPool.run_append {s s1 s2 : ThreadPool V E} {l1 l2 : List (Action V E)}
    (h1 : s.run l1 = some s1) (h2 : s1.run l2 = some s2) : s.run (l1 ++ l2) = some s2 := by
  induction l1 generalizing s with
  | nil =>
    simp only [ThreadPool.run, Option.some.injEq] at h1
    subst h1
    exact h2
  | cons a rest ih =>
    unfold ThreadPool.run at h1
    split at h1
    · rename_i s' hs'
      simp only [List.cons_append, ThreadPool.run, hs']
      exact ih h1
    · cases h1

/-! ## What one step can change -/

theorem ThreadPool.step_frame {s s' : ThreadPool V E} {a : Action V E}
    (h : s.step a = some s') :
    s'.m_threads.length = s.m_threads.length ∧
    (s.m_shutdown = true → s'.m_shutdown = true) ∧
    (s'.m_shutdown ≠ s.m_shutdown →
      a = Action.shutdown ∧ s.m_shutdown = false ∧ s'.m_shutdown = true) := by
  cases a with
  | init =>
    simp only [ThreadPool.step, ThreadPool.init] at h
    split at h
    · split at h
      · split at h
        · split at h
          · cases h
          · cases h; simp
        · cases h
      · cases h; simp
    · cases h
    · cases h
    · cases h; simp
  | shutdown =>
    simp only [ThreadPool.step, ThreadPool.shutdown] at h
    split at h
    · cases h
    · cases h; simp
    · split at h
      · split at h
        · split at h
          · split at h
            · cases h; simp
            · cases h
          · cases h; simp
        · cases h
      · cases h; simp
    · cases h
      refine ⟨rfl, fun _ => rfl, fun hne => ⟨rfl, ?_, rfl⟩⟩
      cases hb : s.m_shutdown
      · rfl
      · exact absurd hb.symm hne
  | submit func =>
    simp only [ThreadPool.step, Option.some.injEq] at h
    subst h
    simp [ThreadPool.submit]
  | notify_one i =>
    simp only [ThreadPool.step, ThreadPool.notify_one] at h
    split at h
    · cases h
    · split at h
      · split at h
        · cases h; simp
        · cases h
      · split at h
        · split at h
          · cases h; simp
          · cases h
        · cases h
  | worker i =>
    obtain ⟨w, w', p', hw, hstep, rfl⟩ := ThreadPool.worker_eq_some h
    obtain ⟨hflag, -, -⟩ := hstep.frame
    have hthr := hstep.threads_eq
    refine ⟨by simp [hthr], fun ht => by rw [← ht]; exact hflag, fun hne => absurd hflag hne⟩
  | spurious i =>
    simp only [ThreadPool.step, ThreadPool.spurious] at h
    split at h
    · split at h
      · cases h; simp
      · cases h
    · cases h

theorem Reachable.threads_length {n : Int} {s : ThreadPool V E} (h : Reachable n s) :
    (s.m_threads.length : Int) = n := by
  induction h with
  | construct hc =>
    unfold ThreadPool.construct at hc
    split at hc
    · rename_i hn
      cases hc
      simp only [List.length_replicate]
      exact Int.toNat_of_nonneg hn
    · cases hc
  | step a _ hs ih => rw [(ThreadPool.step_frame hs).1]; exact ih

/-! ## The pool: the claims -/

/-- C7: pool state invariant.  A pool constructed with `n_threads` threads
starts with the shutdown flag false and `n_threads` worker slots; every step of
`init`, `submit`, the worker loop and `shutdown` keeps the number of slots and
never turns the flag from true to false; the flag changes only in a step of
`shutdown()`, from false to true.  Hence every reachable state has `n_threads`
slots. -/
theorem pool_state_invariant :
    (∀ (n_threads : Int) (s : ThreadPool V E), ThreadPool.construct n_threads = some s →
      s.m_shutdown = false ∧ (s.m_threads.length : Int) = n_threads) ∧
    (∀ (s s' : ThreadPool V E) (a : Action V E), s.step a = some s' →
      s'.m_threads.length = s.m_threads.length ∧
      (s.m_shutdown = true → s'.m_shutdown = true) ∧
      (s'.m_shutdown ≠ s.m_shutdown →
        a = Action.shutdown ∧ s.m_shutdown = false ∧ s'.m_shutdown = true)) ∧
    (∀ (n_threads : Int) (s : ThreadPool V E), Reachable n_threads s →
      (s.m_threads.length : Int) = n_threads) := by
  refine ⟨?_, fun s s' a h => ThreadPool.step_frame h, fun n s h => h.threads_length⟩
  intro n s hc
  refine ⟨?_, (Reachable.construct hc).threads_length⟩
  unfold ThreadPool.construct at hc
  split at hc
  · cases hc; rfl
  · cases hc

/-- C7 (witness): the pool constructed with 4 threads has 4 slots and a false
flag; the first step of `shutdown()` keeps the 4 slots and sets the flag. -/
theorem pool_state_invariant_witness :
    ((ThreadPool.after 4 [] : ThreadPool Nat DemoError).m_shutdown = false ∧
      ((ThreadPool.after 4 [] : ThreadPool Nat DemoError).m_threads.length : Int) = 4) ∧
    (ThreadPool.after 4 [Action.shutdown] : ThreadPool Nat DemoError).m_threads.length =
      (ThreadPool.after 4 [] : ThreadPool Nat DemoError).m_threads.length :=
  ⟨pool_state_invariant.1 4 (ThreadPool.after 4 []) rfl,
   (pool_state_invariant.2.1 (ThreadPool.after 4 []) (ThreadPool.after 4 [Action.shutdown])
      Action.shutdown rfl).1⟩

/-! ### C9 -/

/-- C9: a worker never holds the wait-mutex while executing a task.  In every
reachable state a worker about to run `func()` does not own
`m_conditional_mutex`; a worker owns it exactly between the lock of line 80
and the closing brace of line 87 (emptiness check, entry of `wait`, dequeue
attempt), and the step at that brace releases it before the task is invoked. -/
theorem worker_runs_unlocked (n_threads : Int) (s : ThreadPool V E)
    (hs : Reachable n_threads s) (i : Nat) (w : ThreadWorker)
    (hw : s.m_threads[i]? = some w) :
    (w.pc = Pc.running → s.m_conditional_mutex ≠ some i) ∧
    (s.m_conditional_mutex = some i ↔
      (w.pc = Pc.checkEmpty ∨ w.pc = Pc.enterWait ∨ w.pc = Pc.dequeue ∨ w.pc = Pc.unlock)) ∧
    (w.pc = Pc.unlock → ∀ s', s.worker i = some s' →
      s'.m_conditional_mutex = none ∧
        s'.pcOf i = (if w.dequeued then Pc.running else Pc.loopHead)) := by
  have hinv := hs.inv
  have hiff : s.m_conditional_mutex = some i ↔ w.pc.holdsMutex = true := by
    constructor
    · intro hm
      obtain ⟨v, hv, hh⟩ := hinv.holds_of_mutex i hm
      rw [hw] at hv; cases hv
      exact hh
    · exact hinv.mutex_of_holds i w hw
  refine ⟨?_, ?_, ?_⟩
  · intro hpc hm
    have := hiff.1 hm
    rw [hpc] at this
    simp [Pc.holdsMutex] at this
  · rw [hiff]
    cases hpc : w.pc <;> simp [Pc.holdsMutex]
  · intro hpc s' hstep
    have hlt : i < s.m_threads.length := (List.getElem?_eq_some.1 hw).1
    simp only [ThreadPool.worker, hw, ThreadPool.operator_call, hpc, Option.some.injEq] at hstep
    subst hstep
    simp [ThreadPool.pcOf, List.getElem?_set_self hlt]

/-- C9 (witness): in the one-worker scenario the worker is about to run the
dequeued task and the mutex is free. -/
theorem worker_runs_unlocked_witness :
    (ThreadPool.after 1 serveSched).m_threads[0]? = some ⟨Pc.running, Wrapper.task 0, true, true⟩ ∧
    (ThreadPool.after 1 serveSched).m_conditional_mutex ≠ some 0 :=
  ⟨rfl, (worker_runs_unlocked 1 (ThreadPool.after 1 serveSched)
      (Reachable.of_runFrom serveSched rfl) 0
      ⟨Pc.running, Wrapper.task 0, true, true⟩ rfl).1 rfl⟩

/-! ### C10 -/

theorem Inv.invoked_le_one {s : ThreadPool V E} (hinv : Inv s) (k : Nat) :
    s.invoked k ≤ 1 ∧ s.calls k = s.invoked k := by
  unfold ThreadPool.invoked ThreadPool.calls
  cases hp : s.heap[k]? with
  | none => simp
  | some p =>
    have := hinv.tokens k p hp
    have := (hinv.heap_ok k p hp).1
    simp only
    omega

/-- C10: at-most-once execution.  In every reachable state, with any number of
workers, every wrapper has been run by a worker 0 or 1 times (and its callable
as often); a worker about to run `func()` is in an iteration whose `dequeue`
returned true; a `dequeue` on an empty queue keeps the stale `func`, sets
`dequeued` to false and sends the worker back to the loop head without running
anything; and every submitted wrapper is in exactly one place: in the queue
once, or held by one worker that dequeued it, or already run once. -/
theorem at_most_once (n_threads : Int) (s : ThreadPool V E) (hs : Reachable n_threads s) :
    (∀ k, s.invoked k ≤ 1 ∧ s.calls k = s.invoked k) ∧
    (∀ (i : Nat) (w : ThreadWorker), s.m_threads[i]? = some w →
      (w.pc = Pc.running → w.dequeued = true) ∧
      (w.pc = Pc.dequeue → s.m_queue.m_queue = [] →
        ∃ s1 s2, s.worker i = some s1 ∧ s1.worker i = some s2 ∧
          s1.m_threads[i]? = some { w with pc := Pc.unlock, dequeued := false } ∧
          s2.m_threads[i]? = some { w with pc := Pc.loopHead, dequeued := false } ∧
          s2.heap = s.heap)) ∧
    (∀ k, k < s.heap.length →
      s.m_queue.m_queue.count (Wrapper.task k) +
        s.m_threads.countP (ThreadWorker.pendingOn k) + s.invoked k = 1) := by
  have hinv := hs.inv
  refine ⟨hinv.invoked_le_one, ?_, ?_⟩
  · intro i w hw
    refine ⟨hinv.running_dequeued i w hw, ?_⟩
    intro hpc hq
    have hlt : i < s.m_threads.length := (List.getElem?_eq_some.1 hw).1
    refine ⟨{ s with m_threads := s.m_threads.set i { w with pc := Pc.unlock, dequeued := false } },
      { s with
        m_threads := (s.m_threads.set i { w with pc := Pc.unlock, dequeued := false }).set i
          { w with pc := Pc.loopHead, dequeued := false }
        m_conditional_mutex := none }, ?_, ?_, ?_, ?_, ?_⟩
    · simp only [ThreadPool.worker, hw, ThreadPool.operator_call, hpc, SafeQueue.dequeue, hq]
    · simp only [ThreadPool.worker, List.getElem?_set_self hlt, ThreadPool.operator_call,
        Bool.false_eq_true, if_false]
    · simp [List.getElem?_set_self hlt]
    · simp [List.getElem?_set_self hlt]
    · rfl
  · intro k hk
    have hp : s.heap[k]? = some s.heap[k] := List.getElem?_eq_getElem hk
    have := hinv.tokens k _ hp
    simp only [ThreadPool.invoked, hp]
    exact this

/-- C10 (witness): after the one-worker scenario and the run of the wrapper, the
task has been invoked once, and not more. -/
theorem at_most_once_witness :
    (ThreadPool.after 1 (serveSched ++ [Action.worker 0])).invoked 0 = 1 ∧
    (ThreadPool.after 1 (serveSched ++ [Action.worker 0])).invoked 0 ≤ 1 :=
  ⟨rfl, ((at_most_once 1 (ThreadPool.after 1 (serveSched ++ [Action.worker 0]))
      (Reachable.of_runFrom (serveSched ++ [Action.worker 0]) (by rfl))).1 0).1⟩

/-! ### C6 -/

theorem map_wake_of_outside {l : List ThreadWorker}
    (hq : ∀ (i : Nat) (w : ThreadWorker), l[i]? = some w →
      w.pc = Pc.notStarted ∨ w.pc = Pc.loopHead ∨ w.pc = Pc.terminated) :
    l.map ThreadPool.wake = l := by
  have : ∀ w ∈ l, ThreadPool.wake w = id w := by
    intro w hw
    obtain ⟨i, hi⟩ := List.mem_iff_getElem?.1 hw
    have hpc := hq i w hi
    unfold ThreadPool.wake
    rcases hpc with h | h | h <;> simp [h]
  rw [List.map_congr_left this, List.map_id]

theorem Inv.quiescent_of_returned {s : ThreadPool V E} (hinv : Inv s)
    (hret : s.phase = Phase.returned) :
    ∀ (i : Nat) (w : ThreadWorker), s.m_threads[i]? = some w →
      (w.pc = Pc.notStarted ∨ w.pc = Pc.terminated) ∧ w.joinable = false := by
  intro i w hw
  have hj := hinv.joined_all hret i w hw
  exact ⟨(hinv.joined i w hw).1 hj, hj⟩

/-- While `init()` is not called, worker threads that are all finished and
joined (or never started) stay as they are. -/
theorem ThreadPool.step_of_quiescent {s s' : ThreadPool V E} {a : Action V E}
    (hq : ∀ (i : Nat) (w : ThreadWorker), s.m_threads[i]? = some w →
      (w.pc = Pc.notStarted ∨ w.pc = Pc.terminated) ∧ w.joinable = false)
    (ha : a.isInit = false) (h : s.step a = some s') :
    s'.m_threads = s.m_threads := by
  cases a with
  | init => cases ha
  | shutdown =>
    simp only [ThreadPool.step, ThreadPool.shutdown] at h
    split at h
    · cases h
    · cases h
      exact map_wake_of_outside (fun i w hw => by
        rcases (hq i w hw).1 with h | h
        · exact Or.inl h
        · exact Or.inr (Or.inr h))
    · split at h
      · split at h
        · rename_i w hw
          have hj := (hq _ w hw).2
          rw [hj] at h
          simp only [Bool.false_eq_true, if_false, Option.some.injEq] at h
          subst h
          rfl
        · cases h
      · cases h
        rfl
    · cases h
      rfl
  | submit func =>
    simp only [ThreadPool.step, Option.some.injEq] at h
    subst h
    rfl
  | notify_one i =>
    simp only [ThreadPool.step, ThreadPool.notify_one] at h
    split at h
    · cases h
    · split at h
      · split at h
        · cases h; rfl
        · cases h
      · split at h
        · rename_i w hw
          split at h
          · rename_i hpc
            rcases (hq _ w hw).1 with h' | h' <;> rw [hpc] at h' <;> cases h'
          · cases h
        · cases h
  | worker i =>
    obtain ⟨w, w', p', hw, hstep, rfl⟩ := ThreadPool.worker_eq_some h
    obtain ⟨-, hns, hnt, -⟩ := hstep.thread_effect
    rcases (hq i w hw).1 with h' | h'
    · exact absurd h' hns
    · exact absurd h' hnt
  | spurious i =>
    simp only [ThreadPool.step, ThreadPool.spurious] at h
    split at h
    · rename_i w hw
      split at h
      · rename_i hpc
        rcases (hq _ w hw).1 with h' | h' <;> rw [hpc] at h' <;> cases h'
      · cases h
    · cases h

theorem ThreadPool.run_of_quiescent {s s2 : ThreadPool V E} (sched : List (Action V E))
    (hq : ∀ (i : Nat) (w : ThreadWorker), s.m_threads[i]? = some w →
      (w.pc = Pc.notStarted ∨ w.pc = Pc.terminated) ∧ w.joinable = false)
    (ha : ∀ a ∈ sched, a.isInit = false) (h : s.run sched = some s2) :
    s2.m_threads = s.m_threads := by
  induction sched generalizing s with
  | nil =>
    simp only [ThreadPool.run, Option.some.injEq] at h
    subst h
    rfl
  | cons a rest ih =>
    unfold ThreadPool.run at h
    split at h
    · rename_i s1 hs1
      have h1 := ThreadPool.step_of_quiescent hq (ha a (List.mem_cons_self _ _)) hs1
      have h2 := ih (by rw [h1]; exact hq) (fun b hb => ha b (List.mem_cons_of_mem _ hb)) h
      rw [h2, h1]
    · cases h

theorem WorkerStep.of_loopHead {i : Nat} {w w' : ThreadWorker} {s p' : ThreadPool V E}
    (h : WorkerStep i w s w' p') (hpc : w.pc = Pc.loopHead) (hflag : s.m_shutdown = true) :
    w' = { w with pc := Pc.terminated } ∧ p' = s := by
  cases h <;> simp_all

theorem Halted.start {s : ThreadPool V E} (hflag : s.m_shutdown = true)
    (hout : ∀ (i : Nat) (w : ThreadWorker), s.m_threads[i]? = some w →
      w.pc = Pc.notStarted ∨ w.pc = Pc.loopHead ∨ w.pc = Pc.terminated) :
    Halted s s :=
  ⟨hflag, hout, ⟨[], by simp⟩, fun _ _ => rfl, Nat.le_refl _, fun _ _ => rfl,
    fun k p hk hp => by
      rw [List.getElem?_eq_none hk] at hp
      cases hp⟩

theorem Halted.keep {s s2 s3 : ThreadPool V E} (h : Halted s s2)
    (hflag : s3.m_shutdown = true)
    (hout : ∀ (i : Nat) (w : ThreadWorker), s3.m_threads[i]? = some w →
      w.pc = Pc.notStarted ∨ w.pc = Pc.loopHead ∨ w.pc = Pc.terminated)
    (hq : s3.m_queue = s2.m_queue) (hh : s3.heap = s2.heap) : Halted s s3 := by
  refine ⟨hflag, hout, ?_, ?_, ?_, ?_, ?_⟩
  · rw [hq]; exact h.queue
  · rw [hq]; exact h.old_count
  · rw [hh]; exact h.heap_len
  · rw [hh]; exact h.old_heap
  · rw [hh]; exact h.new_heap

theorem Halted.set_outside {s s2 : ThreadPool V E} (h : Halted s s2) (i : Nat)
    (v : ThreadWorker)
    (hv : v.pc = Pc.notStarted ∨ v.pc = Pc.loopHead ∨ v.pc = Pc.terminated) :
    ∀ (j : Nat) (w : ThreadWorker), (s2.m_threads.set i v)[j]? = some w →
      w.pc = Pc.notStarted ∨ w.pc = Pc.loopHead ∨ w.pc = Pc.terminated := by
  intro j w hw
  rcases getElem?_set_cases hw with ⟨-, rfl⟩ | ⟨-, hw'⟩
  · exact hv
  · exact h.outside j w hw'

theorem Halted.next_step {s s2 s3 : ThreadPool V E} {a : Action V E} (h : Halted s s2)
    (hstep : s2.step a = some s3) : Halted s s3 := by
  cases a with
  | init =>
    simp only [ThreadPool.step, ThreadPool.init] at hstep
    split at hstep
    · split at hstep
      · split at hstep
        · split at hstep
          · cases hstep
          · cases hstep
            exact h.keep h.flag (h.set_outside _ _ (Or.inr (Or.inl rfl))) rfl rfl
        · cases hstep
      · cases hstep
        exact h.keep h.flag h.outside rfl rfl
    · cases hstep
    · cases hstep
    · cases hstep
      exact h.keep h.flag h.outside rfl rfl
  | shutdown =>
    simp only [ThreadPool.step, ThreadPool.shutdown] at hstep
    split at hstep
    · cases hstep
    · cases hstep
      refine h.keep h.flag ?_ rfl rfl
      show ∀ (i : Nat) (w : ThreadWorker), (s2.m_threads.map ThreadPool.wake)[i]? = some w → _
      rw [map_wake_of_outside h.outside]
      exact h.outside
    · split at hstep
      · split at hstep
        · rename_i w hw
          split at hstep
          · split at hstep
            · cases hstep
              exact h.keep h.flag (h.set_outside _ _ (h.outside _ w hw)) rfl rfl
            · cases hstep
          · cases hstep
            exact h.keep h.flag h.outside rfl rfl
        · cases hstep
      · cases hstep
        exact h.keep h.flag h.outside rfl rfl
    · cases hstep
      exact h.keep rfl h.outside rfl rfl
  | submit func =>
    simp only [ThreadPool.step, Option.some.injEq] at hstep
    subst hstep
    have hlen := h.heap_len
    refine ⟨h.flag, h.outside, ?_, ?_, ?_, ?_, ?_⟩
    · obtain ⟨extra, he⟩ := h.queue
      refine ⟨extra ++ [Wrapper.task s2.heap.length], ?_⟩
      show s2.m_queue.m_queue ++ [_] = _
      rw [he, List.append_assoc]
    · intro k hk
      show (s2.m_queue.m_queue ++ [Wrapper.task s2.heap.length]).count (Wrapper.task k) = _
      have hc : List.count (Wrapper.task k) [Wrapper.task s2.heap.length] = 0 := by
        rw [List.count_eq_zero]
        intro hm
        simp only [List.mem_singleton, Wrapper.task.injEq] at hm
        omega
      rw [List.count_append, h.old_count k hk, hc]
      rfl
    · show s.heap.length ≤ (s2.heap ++ [_]).length
      simp only [List.length_append, List.length_singleton]
      omega
    · intro k hk
      show (s2.heap ++ [_])[k]? = _
      rw [List.getElem?_append_left (by omega)]
      exact h.old_heap k hk
    · intro k p hk hp
      change (s2.heap ++ [⟨func, none, 0, 0⟩])[k]? = some p at hp
      by_cases hk2 : k < s2.heap.length
      · rw [List.getElem?_append_left hk2] at hp
        exact h.new_heap k p hk hp
      · rw [List.getElem?_append_right (by omega)] at hp
        have hk0 : k = s2.heap.length := by
          by_contra hne
          have : k - s2.heap.length = (k - s2.heap.length - 1) + 1 := by omega
          rw [this] at hp
          simp at hp
        subst hk0
        simp only [Nat.sub_self, List.getElem?_cons_zero, Option.some.injEq] at hp
        subst hp
        exact ⟨rfl, rfl, rfl⟩
  | notify_one i =>
    simp only [ThreadPool.step, ThreadPool.notify_one] at hstep
    split at hstep
    · cases hstep
    · split at hstep
      · split at hstep
        · cases hstep
          exact h.keep h.flag h.outside rfl rfl
        · cases hstep
      · split at hstep
        · rename_i w hw
          split at hstep
          · rename_i hpc
            rcases h.outside _ w hw with h' | h' | h' <;> rw [hpc] at h' <;> cases h'
          · cases hstep
        · cases hstep
  | worker i =>
    obtain ⟨w, w', p', hw, hws, rfl⟩ := ThreadPool.worker_eq_some hstep
    obtain ⟨-, hns, hnt, -⟩ := hws.thread_effect
    have hpc : w.pc = Pc.loopHead := by
      rcases h.outside i w hw with h' | h' | h'
      · exact absurd h' hns
      · exact h'
      · exact absurd h' hnt
    obtain ⟨rfl, rfl⟩ := hws.of_loopHead hpc h.flag
    exact h.keep h.flag (h.set_outside _ _ (Or.inr (Or.inr rfl))) rfl rfl
  | spurious i =>
    simp only [ThreadPool.step, ThreadPool.spurious] at hstep
    split at hstep
    · rename_i w hw
      split at hstep
      · rename_i hpc
        rcases h.outside _ w hw with h' | h' | h' <;> rw [hpc] at h' <;> cases h'
      · cases hstep
    · cases hstep

theorem Halted.of_steps {s s2 : ThreadPool V E} (h0 : Halted s s) (hsteps : Steps s s2) :
    Halted s s2 := by
  induction hsteps with
  | refl => exact h0
  | step a _ hstep ih => exact ih.next_step hstep

theorem Inv.halted_of_returned {s : ThreadPool V E} (hinv : Inv s)
    (hret : s.phase = Phase.returned) : Halted s s :=
  Halted.start (hinv.flag_set (Or.inr (Or.inr hret))) (fun i w hw => by
    rcases (hinv.quiescent_of_returned hret i w hw).1 with h | h
    · exact Or.inl h
    · exact Or.inr (Or.inr h))

theorem Halted.history {s s2 : ThreadPool V E} (h : Halted s s2) (k : Nat) :
    s2.invoked k = s.invoked k ∧ s2.calls k = s.calls k ∧
      s2.future_get k = s.future_get k := by
  unfold ThreadPool.invoked ThreadPool.calls ThreadPool.future_get
  by_cases hk : k < s.heap.length
  · rw [h.old_heap k hk]
    exact ⟨rfl, rfl, rfl⟩
  · have hnone : s.heap[k]? = none := List.getElem?_eq_none (by omega)
    rw [hnone]
    cases hp : s2.heap[k]? with
    | none => exact ⟨rfl, rfl, rfl⟩
    | some p =>
      obtain ⟨h1, h2, h3⟩ := h.new_heap k p (by omega) hp
      exact ⟨h1, h2, h3⟩

/-- C6: shutdown termination (safety).  In every reachable state in which a
call of `shutdown()` has returned, the shutdown flag is true, every worker
thread that `init()` started has left its loop (`terminated`) and has been
joined, and no worker can take a step.  Afterwards, as long as `init()` is not
called again, the worker threads stay exactly as they are; and in every
continuation whatsoever (also one that calls `init()` again and so starts new
threads) the flag stays true, no worker is ever past the loop test of line 77,
the only step a worker can take is to leave at that test, nothing is dequeued
and no task is executed. -/
theorem shutdown_returns_after_join (n_threads : Int) (s : ThreadPool V E)
    (hs : Reachable n_threads s) (hret : s.phase = Phase.returned) :
    s.m_shutdown = true ∧
    (∀ (i : Nat) (w : ThreadWorker), s.m_threads[i]? = some w → w.pc ≠ Pc.notStarted →
      w.pc = Pc.terminated ∧ w.joinable = false) ∧
    (∀ i, s.worker i = none ∧ s.spurious i = none) ∧
    (∀ (sched : List (Action V E)) (s2 : ThreadPool V E), (∀ a ∈ sched, a.isInit = false) →
      s.run sched = some s2 → s2.m_threads = s.m_threads) ∧
    (∀ s2, Steps s s2 →
      s2.m_shutdown = true ∧
      (∀ i, s2.pcOf i = Pc.notStarted ∨ s2.pcOf i = Pc.loopHead ∨
        s2.pcOf i = Pc.terminated) ∧
      (∀ i s3, s2.worker i = some s3 →
        s2.pcOf i = Pc.loopHead ∧ s3.pcOf i = Pc.terminated ∧
          s3.m_queue = s2.m_queue ∧ s3.heap = s2.heap) ∧
      (∃ extra, s2.m_queue.m_queue = s.m_queue.m_queue ++ extra) ∧
      (∀ k, s2.invoked k = s.invoked k ∧ s2.calls k = s.calls k ∧
        s2.future_get k = s.future_get k)) := by
  have hinv := hs.inv
  have hq := hinv.quiescent_of_returned hret
  refine ⟨hinv.flag_set (Or.inr (Or.inr hret)), ?_, ?_, ?_, ?_⟩
  · intro i w hw hne
    obtain ⟨hpc, hj⟩ := hq i w hw
    rcases hpc with h | h
    · exact absurd h hne
    · exact ⟨h, hj⟩
  · intro i
    constructor
    · cases hw : s.worker i with
      | none => rfl
      | some s' =>
        obtain ⟨w, w', p', hw', hstep, -⟩ := ThreadPool.worker_eq_some hw
        obtain ⟨-, hns, hnt, -⟩ := hstep.thread_effect
        rcases (hq i w hw').1 with h' | h'
        · exact absurd h' hns
        · exact absurd h' hnt
    · unfold ThreadPool.spurious
      split
      · rename_i w hw
        rcases (hq i w hw).1 with h' | h' <;> simp [h']
      · rfl
  · intro sched s2 ha hrun
    exact ThreadPool.run_of_quiescent sched hq ha hrun
  · intro s2 hsteps
    have hh := (hinv.halted_of_returned hret).of_steps hsteps
    refine ⟨hh.flag, ?_, ?_, hh.queue, hh.history⟩
    · intro i
      unfold ThreadPool.pcOf
      cases hw : s2.m_threads[i]? with
      | none => exact Or.inl rfl
      | some w => exact hh.outside i w hw
    · intro i s3 hw3
      obtain ⟨w, w', p', hw, hws, rfl⟩ := ThreadPool.worker_eq_some hw3
      obtain ⟨-, hns, hnt, -⟩ := hws.thread_effect
      have hpc : w.pc = Pc.loopHead := by
        rcases hh.outside i w hw with h' | h' | h'
        · exact absurd h' hns
        · exact h'
        · exact absurd h' hnt
      have hlt : i < s2.m_threads.length := (List.getElem?_eq_some.1 hw).1
      obtain ⟨hw', hp'⟩ := hws.of_loopHead hpc hh.flag
      rw [hw', hp']
      refine ⟨?_, ?_, rfl, rfl⟩
      · simp only [ThreadPool.pcOf, hw, hpc]
      · simp only [ThreadPool.pcOf, List.getElem?_set_self hlt]

/-- C6 (witness): one worker runs the first of two tasks, then `shutdown()`
returns: the flag is true and worker 0 has terminated and been joined.  When
`init()` is then called again, the new thread stands at the loop test and the
second task is still not run. -/
theorem shutdown_returns_after_join_witness :
    (ThreadPool.after 1 mixedSched).phase = Phase.returned ∧
    (ThreadPool.after 1 mixedSched).m_shutdown = true ∧
    (ThreadPool.after 1 mixedSched).m_threads[0]? =
      some ⟨Pc.terminated, Wrapper.task 0, true, false⟩ ∧
    (ThreadPool.after 1 (mixedSched ++ [Action.init, Action.init])).pcOf 0 = Pc.loopHead ∧
    (ThreadPool.after 1 (mixedSched ++ [Action.init, Action.init])).m_shutdown = true ∧
    (ThreadPool.after 1 (mixedSched ++ [Action.init, Action.init])).invoked 1 =
      (ThreadPool.after 1 mixedSched).invoked 1 :=
  ⟨rfl, (shutdown_returns_after_join 1 (ThreadPool.after 1 mixedSched)
      (Reachable.of_runFrom mixedSched (by rfl)) rfl).1, rfl, rfl,
    ((shutdown_returns_after_join 1 (ThreadPool.after 1 mixedSched)
      (Reachable.of_runFrom mixedSched (by rfl)) rfl).2.2.2.2
      (ThreadPool.after 1 (mixedSched ++ [Action.init, Action.init]))
      (Steps.of_run [Action.init, Action.init] (by rfl))).1,
    (((shutdown_returns_after_join 1 (ThreadPool.after 1 mixedSched)
      (Reachable.of_runFrom mixedSched (by rfl)) rfl).2.2.2.2
      (ThreadPool.after 1 (mixedSched ++ [Action.init, Action.init]))
      (Steps.of_run [Action.init, Action.init] (by rfl))).2.2.2.2 1).1⟩

/-! ### C4 -/

theorem sum_range_indicator (n k0 : Nat) (h : k0 < n) :
    ((List.range n).map (fun k => if k0 = k then 1 else 0)).sum = 1 := by
  induction n with
  | zero => omega
  | succ n ih =>
    rw [List.range_succ, List.map_append, List.sum_append]
    by_cases hk : k0 < n
    · have hne : k0 ≠ n := by omega
      simp [ih hk, hne]
    · have hk0 : k0 = n := by omega
      subst hk0
      have hz : ((List.range k0).map (fun k => if k0 = k then 1 else 0)).sum = 0 := by
        apply List.sum_eq_zero
        intro x hx
        simp only [List.mem_map, List.mem_range] at hx
        obtain ⟨k, hk, rfl⟩ := hx
        have : k0 ≠ k := by omega
        simp [this]
      simp [hz]

theorem sum_count_tasks (n : Nat) (q : List Wrapper)
    (h : ∀ x ∈ q, ∃ k, x = Wrapper.task k ∧ k < n) :
    ((List.range n).map (fun k => q.count (Wrapper.task k))).sum = q.length := by
  induction q with
  | nil => simp
  | cons x q ih =>
    obtain ⟨k0, rfl, hk0⟩ := h x (List.mem_cons_self _ _)
    have ih' := ih (fun y hy => h y (List.mem_cons_of_mem _ hy))
    have hfun : (fun k => (Wrapper.task k0 :: q).count (Wrapper.task k)) =
        (fun k => q.count (Wrapper.task k) + (if k0 = k then 1 else 0)) := by
      funext k
      rw [List.count_cons]
      simp
    rw [hfun, List.sum_map_add, ih', sum_range_indicator n k0 hk0, List.length_cons]

theorem ThreadPool.counter_eq_sum_range (s : ThreadPool V E) :
    s.counter = ((List.range s.heap.length).map (fun k => s.calls k)).sum := by
  unfold ThreadPool.counter
  congr 1
  apply List.ext_getElem
  · simp
  · intro k h1 h2
    simp only [List.length_map] at h1
    simp [ThreadPool.calls, List.getElem?_eq_getElem h1]

theorem Inv.counter_of_quiescent {s : ThreadPool V E} (hinv : Inv s)
    (hq : ∀ (i : Nat) (w : ThreadWorker), s.m_threads[i]? = some w →
      (w.pc = Pc.notStarted ∨ w.pc = Pc.terminated) ∧ w.joinable = false) :
    s.counter + s.m_queue.m_queue.length = s.heap.length := by
  have hone : ∀ k ∈ List.range s.heap.length,
      s.calls k + s.m_queue.m_queue.count (Wrapper.task k) = 1 := by
    intro k hk
    have hk' : k < s.heap.length := List.mem_range.1 hk
    have hp : s.heap[k]? = some s.heap[k] := List.getElem?_eq_getElem hk'
    have htok := hinv.tokens k _ hp
    have hc : s.m_threads.countP (ThreadWorker.pendingOn k) = 0 := by
      rw [List.countP_eq_zero]
      intro w hmem hpend
      obtain ⟨i, hi⟩ := List.mem_iff_getElem?.1 hmem
      rcases (hq i w hi).1 with h | h <;>
        simp [ThreadWorker.pendingOn, ThreadWorker.holdsTask, h] at hpend
    have hcalls := (hinv.heap_ok k _ hp).1
    simp only [ThreadPool.calls, hp]
    omega
  have hsum : ((List.range s.heap.length).map
      (fun k => s.calls k + s.m_queue.m_queue.count (Wrapper.task k))).sum = s.heap.length := by
    rw [List.map_congr_left hone]
    simp
  rw [List.sum_map_add, sum_count_tasks _ _ hinv.queue_tasks, ← s.counter_eq_sum_range] at hsum
  exact hsum

set_option maxRecDepth 100000 in
/-- C4 (counterexample): a pool of 2 workers is constructed, `init()` is called
and returns, 100 tasks are submitted from one thread, then `shutdown()` is
called and returns; both workers were scheduled only after the flag was set.
No task has been invoked: the counter is 0, not 100, and all 100 wrappers are
still in the queue. -/
theorem shutdown_drops_queued_tasks :
    ThreadPool.runFrom 2 (dropSched 100) = some (ThreadPool.after 2 (dropSched 100)) ∧
    (ThreadPool.after 2 (dropSched 100)).phase = Phase.returned ∧
    (ThreadPool.after 2 (dropSched 100)).heap.length = 100 ∧
    (ThreadPool.after 2 (dropSched 100)).m_queue.m_queue.length = 100 ∧
    (ThreadPool.after 2 (dropSched 100)).calls 0 = 0 ∧
    (ThreadPool.after 2 (dropSched 100)).counter = 0 :=
  ⟨rfl, rfl, rfl, rfl, rfl, rfl⟩

/-- C4 (amended): at-most-once execution up to the return of `shutdown()`.  In
every run in which a pool is constructed, tasks are submitted and `shutdown()`
is called and returns, every submitted task's callable has, when `shutdown()`
returns, either been invoked exactly once, or not been invoked at all, and then
its wrapper is still in the queue.  The counter of the increment scenario
equals the number of submitted tasks minus the number of wrappers left in the
queue.  In every continuation of the run none of this changes: a wrapper left
in the queue stays there and its callable is never run. -/
theorem shutdown_runs_each_task_at_most_once (n_threads : Int) (s : ThreadPool V E)
    (hs : Reachable n_threads s) (hret : s.phase = Phase.returned) :
    (∀ k, k < s.heap.length →
      (s.calls k = 1 ∧ s.m_queue.m_queue.count (Wrapper.task k) = 0) ∨
      (s.calls k = 0 ∧ s.m_queue.m_queue.count (Wrapper.task k) = 1)) ∧
    s.counter + s.m_queue.m_queue.length = s.heap.length ∧
    (∀ s2, Steps s s2 → ∀ k, k < s.heap.length →
      s2.calls k = s.calls k ∧ s2.invoked k = s.invoked k ∧
      s2.future_get k = s.future_get k ∧
      s2.m_queue.m_queue.count (Wrapper.task k) =
        s.m_queue.m_queue.count (Wrapper.task k)) := by
  have hinv := hs.inv
  have hq := hinv.quiescent_of_returned hret
  refine ⟨?_, hinv.counter_of_quiescent hq, ?_⟩
  · intro k hk
    have hp : s.heap[k]? = some s.heap[k] := List.getElem?_eq_getElem hk
    have htok := hinv.tokens k _ hp
    have hc : s.m_threads.countP (ThreadWorker.pendingOn k) = 0 := by
      rw [List.countP_eq_zero]
      intro w hmem hpend
      obtain ⟨i, hi⟩ := List.mem_iff_getElem?.1 hmem
      rcases (hq i w hi).1 with h | h <;>
        simp [ThreadWorker.pendingOn, ThreadWorker.holdsTask, h] at hpend
    have hcalls := (hinv.heap_ok k _ hp).1
    simp only [ThreadPool.calls, hp]
    omega
  · intro s2 hsteps k hk
    have hh := (hinv.halted_of_returned hret).of_steps hsteps
    obtain ⟨h1, h2, h3⟩ := hh.history k
    exact ⟨h2, h1, h3, hh.old_count k hk⟩

/-- C4 (witness): one worker, two tasks.  The worker runs the first task, then
`shutdown()` returns: the first callable was invoked once, the second never and
its wrapper is still queued; after a second `init()` and a step of the new
thread the second callable is still not run. -/
theorem shutdown_runs_each_task_at_most_once_witness :
    (ThreadPool.after 1 mixedSched).phase = Phase.returned ∧
    ((ThreadPool.after 1 mixedSched).calls 0 = 1 ∧
      (ThreadPool.after 1 mixedSched).m_queue.m_queue.count (Wrapper.task 0) = 0) ∧
    ((ThreadPool.after 1 mixedSched).calls 1 = 0 ∧
      (ThreadPool.after 1 mixedSched).m_queue.m_queue.count (Wrapper.task 1) = 1) ∧
    (ThreadPool.after 1 mixedSched).counter + 1 = 2 ∧
    (ThreadPool.after 1
      (mixedSched ++ [Action.init, Action.init, Action.worker 0, Action.init])).calls 1 =
      (ThreadPool.after 1 mixedSched).calls 1 := by
  obtain ⟨h1, h2, h3⟩ := shutdown_runs_each_task_at_most_once 1
    (ThreadPool.after 1 mixedSched) (Reachable.of_runFrom mixedSched (by rfl)) rfl
  refine ⟨rfl, ?_, ?_, h2, (h3 _ (Steps.of_run
    [Action.init, Action.init, Action.worker 0, Action.init] (by rfl)) 1 (by decide)).1⟩
  · rcases h1 0 (by decide) with h | h
    · exact h
    · exact absurd h.1 (by decide)
  · rcases h1 1 (by decide) with h | h
    · exact absurd h.1 (by decide)
    · exact h

/-! ### C8 -/

/-- C8 (the defect, evaluated): the lost wakeup.  With one worker, the schedule
`lostSched` is a run of the system and ends in a state in which the queue holds
a task, the worker is blocked inside `wait`, no `notify_one` of any `submit` is
outstanding and `shutdown()` has not begun.  The task has not been run, and
neither the worker nor any pending notification can move (a second call of
`init()` ends in `std::terminate` at its first assignment): only a later
`submit`, `shutdown()` or a spurious wakeup gets the task served. -/
theorem lost_wakeup :
    Reachable 1 (ThreadPool.after 1 lostSched) ∧
    (ThreadPool.after 1 lostSched).m_queue.m_queue = [Wrapper.task 0] ∧
    (ThreadPool.after 1 lostSched).pcOf 0 = Pc.waiting ∧
    (ThreadPool.after 1 lostSched).unnotified = 0 ∧
    (ThreadPool.after 1 lostSched).m_shutdown = false ∧
    (ThreadPool.after 1 lostSched).phase = Phase.serving ∧
    (ThreadPool.after 1 lostSched).invoked 0 = 0 ∧
    (ThreadPool.after 1 lostSched).future_get 0 = none ∧
    (∀ i, (ThreadPool.after 1 lostSched).worker i = none) ∧
    (∀ i, (ThreadPool.after 1 lostSched).notify_one i = none) ∧
    (ThreadPool.after 1 lostSched).init.bind ThreadPool.init = none := by
  refine ⟨Reachable.of_runFrom lostSched rfl, rfl, rfl, rfl, rfl, rfl, rfl, rfl,
    ?_, ?_, rfl⟩
  · intro i
    cases i with
    | zero => rfl
    | succ i => rfl
  · intro i
    rfl

/-! ### C3 -/

theorem WorkerStep.keeps_heap_entry {i : Nat} {w w' : ThreadWorker} {s p' : ThreadPool V E}
    (h : WorkerStep i w s w' p') (k : Nat) (p : PackagedTask V E) (hp : s.heap[k]? = some p) :
    ∃ q, p'.heap[k]? = some q ∧ q.func = p.func ∧ p.invoked ≤ q.invoked := by
  have hlt : k < s.heap.length := (List.getElem?_eq_some.1 hp).1
  cases h with
  | runOk hpc k0 p0 hf hk hs =>
    by_cases hk0 : k = k0
    · subst hk0
      rw [hk] at hp; cases hp
      exact ⟨_, List.getElem?_set_self hlt, rfl, Nat.le_succ _⟩
    · exact ⟨p, by
        show (s.heap.set k0 _)[k]? = some p
        rw [List.getElem?_set_ne (fun e => hk0 e.symm)]; exact hp, rfl, Nat.le_refl _⟩
  | runTwice hpc k0 p0 hf hk hs =>
    by_cases hk0 : k = k0
    · subst hk0
      rw [hk] at hp; cases hp
      exact ⟨_, List.getElem?_set_self hlt, rfl, Nat.le_succ _⟩
    · exact ⟨p, by
        show (s.heap.set k0 _)[k]? = some p
        rw [List.getElem?_set_ne (fun e => hk0 e.symm)]; exact hp, rfl, Nat.le_refl _⟩
  | _ => exact ⟨p, hp, rfl, Nat.le_refl _⟩

theorem ThreadPool.step_heap_entry {s s' : ThreadPool V E} {a : Action V E}
    (h : s.step a = some s') (k : Nat) (p : PackagedTask V E) (hp : s.heap[k]? = some p) :
    ∃ q, s'.heap[k]? = some q ∧ q.func = p.func ∧ p.invoked ≤ q.invoked := by
  have hlt : k < s.heap.length := (List.getElem?_eq_some.1 hp).1
  cases a with
  | init =>
    simp only [ThreadPool.step, ThreadPool.init] at h
    split at h
    · split at h
      · split at h
        · split at h
          · cases h
          · cases h; exact ⟨p, hp, rfl, Nat.le_refl _⟩
        · cases h
      · cases h; exact ⟨p, hp, rfl, Nat.le_refl _⟩
    · cases h
    · cases h
    · cases h; exact ⟨p, hp, rfl, Nat.le_refl _⟩
  | shutdown =>
    simp only [ThreadPool.step, ThreadPool.shutdown] at h
    split at h
    · cases h
    · cases h; exact ⟨p, hp, rfl, Nat.le_refl _⟩
    · split at h
      · split at h
        · split at h
          · split at h
            · cases h; exact ⟨p, hp, rfl, Nat.le_refl _⟩
            · cases h
          · cases h; exact ⟨p, hp, rfl, Nat.le_refl _⟩
        · cases h
      · cases h; exact ⟨p, hp, rfl, Nat.le_refl _⟩
    · cases h; exact ⟨p, hp, rfl, Nat.le_refl _⟩
  | submit func =>
    simp only [ThreadPool.step, Option.some.injEq] at h
    subst h
    exact ⟨p, by
      show (s.heap ++ _)[k]? = some p
      rw [List.getElem?_append_left hlt]; exact hp, rfl, Nat.le_refl _⟩
  | notify_one i =>
    simp only [ThreadPool.step, ThreadPool.notify_one] at h
    split at h
    · cases h
    · split at h
      · split at h
        · cases h; exact ⟨p, hp, rfl, Nat.le_refl _⟩
        · cases h
      · split at h
        · split at h
          · cases h; exact ⟨p, hp, rfl, Nat.le_refl _⟩
          · cases h
        · cases h
  | worker i =>
    obtain ⟨w, w', p', hw, hstep, rfl⟩ := ThreadPool.worker_eq_some h
    exact hstep.keeps_heap_entry k p hp
  | spurious i =>
    simp only [ThreadPool.step, ThreadPool.spurious] at h
    split at h
    · split at h
      · cases h; exact ⟨p, hp, rfl, Nat.le_refl _⟩
      · cases h
    · cases h

theorem Steps.heap_entry_mono {s s2 : ThreadPool V E} (h : Steps s s2) (k : Nat)
    (p : PackagedTask V E) (hp : s.heap[k]? = some p) :
    ∃ q, s2.heap[k]? = some q ∧ q.func = p.func ∧ p.invoked ≤ q.invoked := by
  induction h with
  | refl => exact ⟨p, hp, rfl, Nat.le_refl _⟩
  | step a _ hstep ih =>
    obtain ⟨q, hq, hf, hi⟩ := ih
    obtain ⟨q', hq', hf', hi'⟩ := ThreadPool.step_heap_entry hstep k q hq
    exact ⟨q', hq', hf'.trans hf, Nat.le_trans hi hi'⟩

/-- The future of a task follows its history: in a state that satisfies the
invariant, the shared state of a packaged task is ready iff its wrapper was run,
it was then run exactly once, and the stored result is that of the callable. -/
theorem Inv.future_spec {s : ThreadPool V E} (hinv : Inv s) {k : Nat}
    {q : PackagedTask V E} (hq : s.heap[k]? = some q) :
    (1 ≤ s.invoked k → s.future_get k = some (q.func ())) ∧
    (∀ r, s.future_get k = some r → r = q.func () ∧ s.invoked k = 1 ∧ s.calls k = 1) := by
  obtain ⟨hc, hz, hr⟩ := hinv.heap_ok k q hq
  have htok := hinv.tokens k q hq
  simp only [ThreadPool.invoked, ThreadPool.future_get, ThreadPool.calls, hq]
  constructor
  · intro h1
    cases hst : q.state with
    | none => have := hz.1 hst; omega
    | some r => rw [hr r hst]
  · intro r hst
    have hne : q.invoked ≠ 0 := fun h0 => by
      rw [hz.2 h0] at hst; cases hst
    exact ⟨hr r hst, by omega, by omega⟩

/-- C3: result fidelity of `submit`.  For every callable `f` and arguments
`args`, `submit(f, args...)` puts one wrapper at the tail of the queue and
returns a future that is not ready.  In every continuation of the run, once a
worker has invoked that wrapper the future yields exactly the value `v` if
`f(args...)` returns `v` and raises exactly the error `e` if `f(args...)` raises
`e`; and whenever the future is ready it holds the outcome of `f(args...)` and
the wrapper and the callable have been invoked exactly once. -/
theorem submit_result_fidelity {A : Type} (n_threads : Int) (s : ThreadPool V E)
    (hs : Reachable n_threads s) (f : A → Except E V) (args : A) (s2 : ThreadPool V E)
    (hrun : Steps (s.submit (bind f args)) s2) :
    (s.submit (bind f args)).m_queue.m_queue =
      s.m_queue.m_queue ++ [Wrapper.task s.heap.length] ∧
    (s.submit (bind f args)).future_get s.heap.length = none ∧
    (1 ≤ s2.invoked s.heap.length → s2.future_get s.heap.length = some (f args)) ∧
    (∀ v, f args = Except.ok v → 1 ≤ s2.invoked s.heap.length →
      s2.future_get s.heap.length = some (Except.ok v)) ∧
    (∀ e, f args = Except.error e → 1 ≤ s2.invoked s.heap.length →
      s2.future_get s.heap.length = some (Except.error e)) ∧
    (∀ r, s2.future_get s.heap.length = some r →
      r = f args ∧ s2.invoked s.heap.length = 1 ∧ s2.calls s.heap.length = 1) := by
  have hs1 : Reachable n_threads (s.submit (bind f args)) :=
    Reachable.step (Action.submit (bind f args)) hs rfl
  have hinv2 := (hs1.steps hrun).inv
  have hnew : (s.submit (bind f args)).heap[s.heap.length]? =
      some ⟨bind f args, none, 0, 0⟩ := by
    show (s.heap ++ [_])[s.heap.length]? = _
    rw [List.getElem?_append_right (Nat.le_refl _)]
    simp
  obtain ⟨q, hq, hf, -⟩ := hrun.heap_entry_mono _ _ hnew
  have hfun : q.func () = f args := by rw [hf]; rfl
  obtain ⟨h1, h2⟩ := hinv2.future_spec hq
  rw [hfun] at h1 h2
  refine ⟨rfl, ?_, h1, ?_, ?_, h2⟩
  · simp only [ThreadPool.future_get, hnew]
  · intro v hv hi
    rw [← hv]; exact h1 hi
  · intro e he hi
    rw [← he]; exact h1 hi

/-- C3 (witness): one worker serves `submit(f, 4)` with `f x = x + 3`; after the
worker has run the wrapper the future yields 7. -/
theorem submit_result_fidelity_witness :
    (ThreadPool.after 1 (serveSched ++ [Action.worker 0])).invoked 0 = 1 ∧
    (ThreadPool.after 1 (serveSched ++ [Action.worker 0])).future_get 0 =
      some (Except.ok 7) :=
  ⟨rfl, (submit_result_fidelity 1 (ThreadPool.after 1 initOne)
      (Reachable.of_runFrom initOne rfl)
      (fun x : Nat => (Except.ok (x + 3) : Except DemoError Nat)) 4
      (ThreadPool.after 1 (serveSched ++ [Action.worker 0]))
      (Steps.of_run [Action.notify_one none, Action.worker 0, Action.worker 0,
        Action.worker 0, Action.worker 0, Action.worker 0, Action.worker 0] (by rfl))).2.2.1
      (by decide)⟩

/-! ### C5 -/

theorem ThreadPool.run_cons_worker {s s' s2 : ThreadPool V E} {i : Nat}
    {sched : List (Action V E)} (h : s.worker i = some s') (h2 : s'.run sched = some s2) :
    s.run (Action.worker i :: sched) = some s2 := by
  simp only [ThreadPool.run, ThreadPool.step, h, h2]

theorem countP_isNotify_of_workers {sched : List (Action V E)}
    (h : sched.all Action.isWorker = true) : sched.countP Action.isNotify = 0 := by
  rw [List.countP_eq_zero]
  intro a ha hn
  have hw := List.all_eq_true.1 h a ha
  cases a <;> simp [Action.isWorker, Action.isNotify] at hw hn

theorem poolSched_of_workers {sched : List (Action V E)}
    (h : sched.all Action.isWorker = true) : poolSched sched = true := by
  unfold poolSched
  rw [countP_isNotify_of_workers h]
  simp only [Bool.and_eq_true, List.all_eq_true, Bool.or_eq_true, decide_eq_true_eq]
  exact ⟨fun a ha => Or.inl (List.all_eq_true.1 h a ha), Nat.zero_le _⟩

theorem poolSched_notify_cons {sched : List (Action V E)} (t : Option Nat)
    (h : sched.all Action.isWorker = true) :
    poolSched (Action.notify_one t :: sched) = true := by
  unfold poolSched
  rw [List.countP_cons, countP_isNotify_of_workers h]
  simp only [Bool.and_eq_true, List.all_eq_true, Bool.or_eq_true, decide_eq_true_eq]
  refine ⟨fun a ha => ?_, by simp [Action.isNotify]⟩
  rcases List.mem_cons.1 ha with rfl | ha
  · exact Or.inr rfl
  · exact Or.inl (List.all_eq_true.1 h a ha)

theorem poolSched_worker_cons {sched : List (Action V E)} (j : Nat)
    (h : poolSched sched = true) : poolSched (Action.worker j :: sched) = true := by
  unfold poolSched at h ⊢
  simp only [Bool.and_eq_true, List.all_eq_true, Bool.or_eq_true, decide_eq_true_eq] at h ⊢
  refine ⟨fun a ha => ?_, ?_⟩
  · rcases List.mem_cons.1 ha with rfl | ha
    · exact Or.inl rfl
    · exact h.1 a ha
  · rw [List.countP_cons]
    simpa [Action.isNotify] using h.2

/-- A worker inside its loop that can take the mutex serves the queue: from a
reachable state in which `shutdown()` has not begun, worker `i` is active and
no other worker owns the mutex, every wrapper that is in the queue (or held by
worker `i`) gets run, by steps of worker `i` alone. -/
theorem serve_by_worker (n : Int) (k i : Nat) :
    ∀ (N : Nat) (s : ThreadPool V E) (w : ThreadWorker), Reachable n s →
      s.m_shutdown = false →
      (s.m_conditional_mutex = none ∨ s.m_conditional_mutex = some i) →
      s.m_threads[i]? = some w → w.pc.active = true →
      (Wrapper.task k ∈ s.m_queue.m_queue ∨ w.pendingOn k = true) →
      6 * s.m_queue.m_queue.length + w.pc.rank < N →
      ∃ sched s2, sched.all Action.isWorker = true ∧ s.run sched = some s2 ∧
        s2.invoked k = 1 ∧ s2.m_shutdown = false := by
  intro N
  induction N with
  | zero => intro s w _ _ _ _ _ _ h; omega
  | succ N ih =>
    intro s w hs hflag hmut hw hact hk hN
    have hinv := hs.inv
    have hlt : i < s.m_threads.length := (List.getElem?_eq_some.1 hw).1
    have hholds : s.m_conditional_mutex = some i → w.pc.holdsMutex = true := by
      intro hm
      obtain ⟨v, hv, hh⟩ := hinv.holds_of_mutex i hm
      rw [hw] at hv; cases hv
      exact hh
    have cont : ∀ (s' : ThreadPool V E) (w' : ThreadWorker), s.worker i = some s' →
        s'.m_shutdown = false →
        (s'.m_conditional_mutex = none ∨ s'.m_conditional_mutex = some i) →
        s'.m_threads[i]? = some w' → w'.pc.active = true →
        (Wrapper.task k ∈ s'.m_queue.m_queue ∨ w'.pendingOn k = true) →
        6 * s'.m_queue.m_queue.length + w'.pc.rank <
          6 * s.m_queue.m_queue.length + w.pc.rank →
        ∃ sched s2, sched.all Action.isWorker = true ∧ s.run sched = some s2 ∧
          s2.invoked k = 1 ∧ s2.m_shutdown = false := by
      intro s' w' hstep hf' hm' hw' ha' hk' hlt'
      obtain ⟨sched, s2, hall, hrun, hdone, hfl⟩ :=
        ih s' w' (Reachable.step (Action.worker i) hs hstep) hf' hm' hw' ha' hk' (by omega)
      exact ⟨Action.worker i :: sched, s2, by simpa [Action.isWorker] using hall,
        ThreadPool.run_cons_worker hstep hrun, hdone, hfl⟩
    have hfree : w.pc.holdsMutex = false → s.m_conditional_mutex = none := by
      intro hnh
      rcases hmut with h | h
      · exact h
      · rw [hholds h] at hnh; cases hnh
    cases hpc : w.pc with
    | notStarted => rw [hpc] at hact; cases hact
    | enterWait => rw [hpc] at hact; cases hact
    | waiting => rw [hpc] at hact; cases hact
    | terminated => rw [hpc] at hact; cases hact
    | aborted => rw [hpc] at hact; cases hact
    | loopHead =>
      have hq : Wrapper.task k ∈ s.m_queue.m_queue := by
        rcases hk with h | h
        · exact h
        · simp [ThreadWorker.pendingOn, ThreadWorker.holdsTask, hpc] at h
      refine cont { s with m_threads := s.m_threads.set i { w with pc := Pc.lock } }
        { w with pc := Pc.lock } ?_ hflag hmut (List.getElem?_set_self hlt) rfl (Or.inl hq) ?_
      · simp only [ThreadPool.worker, hw, ThreadPool.operator_call, hpc, hflag,
          Bool.false_eq_true, if_false]
      · simp only [hpc, Pc.rank]; omega
    | lock =>
      have hq : Wrapper.task k ∈ s.m_queue.m_queue := by
        rcases hk with h | h
        · exact h
        · simp [ThreadWorker.pendingOn, ThreadWorker.holdsTask, hpc] at h
      have hm := hfree (by rw [hpc]; rfl)
      refine cont { s with
          m_threads := s.m_threads.set i { w with pc := Pc.checkEmpty }
          m_conditional_mutex := some i }
        { w with pc := Pc.checkEmpty } ?_ hflag (Or.inr rfl) (List.getElem?_set_self hlt) rfl
        (Or.inl hq) ?_
      · simp only [ThreadPool.worker, hw, ThreadPool.operator_call, hpc, hm]
      · simp only [hpc, Pc.rank]; omega
    | woken =>
      have hq : Wrapper.task k ∈ s.m_queue.m_queue := by
        rcases hk with h | h
        · exact h
        · simp [ThreadWorker.pendingOn, ThreadWorker.holdsTask, hpc] at h
      have hm := hfree (by rw [hpc]; rfl)
      refine cont { s with
          m_threads := s.m_threads.set i { w with pc := Pc.dequeue }
          m_conditional_mutex := some i }
        { w with pc := Pc.dequeue } ?_ hflag (Or.inr rfl) (List.getElem?_set_self hlt) rfl
        (Or.inl hq) ?_
      · simp only [ThreadPool.worker, hw, ThreadPool.operator_call, hpc, hm]
      · simp only [hpc, Pc.rank]; omega
    | checkEmpty =>
      have hq : Wrapper.task k ∈ s.m_queue.m_queue := by
        rcases hk with h | h
        · exact h
        · simp [ThreadWorker.pendingOn, ThreadWorker.holdsTask, hpc] at h
      have hne : s.m_queue.queue_empty = false := by
        unfold SafeQueue.queue_empty
        cases hl : s.m_queue.m_queue with
        | nil => rw [hl] at hq; cases hq
        | cons a l => rfl
      refine cont { s with m_threads := s.m_threads.set i { w with pc := Pc.dequeue } }
        { w with pc := Pc.dequeue } ?_ hflag hmut (List.getElem?_set_self hlt) rfl (Or.inl hq) ?_
      · simp only [ThreadPool.worker, hw, ThreadPool.operator_call, hpc, hne,
          Bool.false_eq_true, if_false]
      · simp only [hpc, Pc.rank]; omega
    | dequeue =>
      have hq : Wrapper.task k ∈ s.m_queue.m_queue := by
        rcases hk with h | h
        · exact h
        · simp [ThreadWorker.pendingOn, ThreadWorker.holdsTask, hpc] at h
      cases hl : s.m_queue.m_queue with
      | nil => rw [hl] at hq; cases hq
      | cons a rest =>
        refine cont { s with
            m_threads := s.m_threads.set i { w with pc := Pc.unlock, func := a, dequeued := true }
            m_queue := ⟨rest⟩ }
          { w with pc := Pc.unlock, func := a, dequeued := true } ?_ hflag hmut
          (List.getElem?_set_self hlt) rfl ?_ ?_
        · simp only [ThreadPool.worker, hw, ThreadPool.operator_call, hpc, SafeQueue.dequeue, hl]
        · rw [hl] at hq
          rcases List.mem_cons.1 hq with h | h
          · right
            simp [ThreadWorker.pendingOn, ThreadWorker.holdsTask, h]
          · exact Or.inl h
        · simp only [hpc, Pc.rank, hl, List.length_cons]; omega
    | unlock =>
      cases hd : w.dequeued with
      | true =>
        refine cont { s with
            m_threads := s.m_threads.set i { w with pc := Pc.running }
            m_conditional_mutex := none }
          { w with pc := Pc.running } ?_ hflag (Or.inl rfl) (List.getElem?_set_self hlt) rfl
          ?_ ?_
        · simp only [ThreadPool.worker, hw, ThreadPool.operator_call, hpc, hd, if_true]
        · rcases hk with h | h
          · exact Or.inl h
          · right
            simp only [ThreadWorker.pendingOn, ThreadWorker.holdsTask, Bool.and_eq_true,
              decide_eq_true_eq] at h ⊢
            exact ⟨by simp, h.2⟩
        · simp only [hpc, Pc.rank]; omega
      | false =>
        have hq : Wrapper.task k ∈ s.m_queue.m_queue := by
          rcases hk with h | h
          · exact h
          · simp [ThreadWorker.pendingOn, ThreadWorker.holdsTask, hpc, hd] at h
        refine cont { s with
            m_threads := s.m_threads.set i { w with pc := Pc.loopHead }
            m_conditional_mutex := none }
          { w with pc := Pc.loopHead } ?_ hflag (Or.inl rfl) (List.getElem?_set_self hlt) rfl
          (Or.inl hq) ?_
        · simp only [ThreadPool.worker, hw, ThreadPool.operator_call, hpc, hd,
            Bool.false_eq_true, if_false]
        · simp only [hpc, Pc.rank]; omega
    | running =>
      obtain ⟨k', p, hf, hp, hst, hi0⟩ :=
        hinv.pending_state hw (by simp [ThreadWorker.holdsTask, hpc])
      have hm := hfree (by rw [hpc]; rfl)
      have hk'lt : k' < s.heap.length := (List.getElem?_eq_some.1 hp).1
      have hstep : s.worker i = some { s with
          m_threads := s.m_threads.set i { w with pc := Pc.loopHead }
          heap := s.heap.set k'
            { p with state := some (p.func ()), calls := p.calls + 1,
                     invoked := p.invoked + 1 } } := by
        simp only [ThreadPool.worker, hw, ThreadPool.operator_call, hpc, hf, hp,
          PackagedTask.invoke_of_none hst, if_true]
      by_cases hkk : k' = k
      · subst hkk
        refine ⟨[Action.worker i], _, rfl, ThreadPool.run_cons_worker hstep rfl, ?_, hflag⟩
        simp only [ThreadPool.invoked, List.getElem?_set_self hk'lt, hi0]
      · have hq : Wrapper.task k ∈ s.m_queue.m_queue := by
          rcases hk with h | h
          · exact h
          · simp [ThreadWorker.pendingOn, hf, hkk] at h
        refine cont _ { w with pc := Pc.loopHead } hstep hflag (Or.inl hm)
          (List.getElem?_set_self hlt) rfl (Or.inl hq) ?_
        simp only [hpc, Pc.rank]; omega


theorem serve_free (n : Int) (s : ThreadPool V E) (hs : Reachable n s)
    (hflag : s.m_shutdown = false) (hmut : s.m_conditional_mutex = none) (i : Nat)
    (w : ThreadWorker) (hw : s.m_threads[i]? = some w) (hstarted : w.pc ≠ Pc.notStarted)
    (hun : 0 < s.unnotified) (k : Nat) (hk : Wrapper.task k ∈ s.m_queue.m_queue) :
    ∃ sched s2, poolSched sched = true ∧ s.run sched = some s2 ∧
      s2.invoked k = 1 ∧ s2.m_shutdown = false := by
  have hinv := hs.inv
  have hlt : i < s.m_threads.length := (List.getElem?_eq_some.1 hw).1
  have hnh : w.pc.holdsMutex = false := by
    cases hh : w.pc.holdsMutex with
    | false => rfl
    | true =>
      have := hinv.mutex_of_holds i w hw hh
      rw [hmut] at this; cases this
  have hnt : w.pc ≠ Pc.terminated := by
    intro h
    have := hinv.terminated_flag i w hw h
    rw [hflag] at this; cases this
  have hna := hinv.not_aborted i w hw
  by_cases hwait : w.pc = Pc.waiting
  · have hstep : s.step (Action.notify_one (some i)) = some { s with
        m_threads := s.m_threads.set i { w with pc := Pc.woken }
        unnotified := s.unnotified - 1 } := by
      have hne : ¬ s.unnotified = 0 := by omega
      simp only [ThreadPool.step, ThreadPool.notify_one, hne, if_false, hw, hwait, if_true]
    obtain ⟨sched, s2, hall, hrun, hdone, hfl⟩ :=
      serve_by_worker n k i _ _ { w with pc := Pc.woken }
        (Reachable.step _ hs hstep) hflag (Or.inl hmut) (List.getElem?_set_self hlt) rfl
        (Or.inl hk) (Nat.lt_succ_self _)
    refine ⟨Action.notify_one (some i) :: sched, s2, poolSched_notify_cons _ hall, ?_, hdone,
      hfl⟩
    simp only [ThreadPool.run, hstep, hrun]
  · have hact : w.pc.active = true := by
      cases hpc : w.pc <;> simp_all [Pc.active, Pc.holdsMutex]
    obtain ⟨sched, s2, hall, hrun, hdone, hfl⟩ :=
      serve_by_worker n k i _ s w hs hflag (Or.inl hmut) hw hact (Or.inl hk)
        (Nat.lt_succ_self _)
    exact ⟨sched, s2, poolSched_of_workers hall, hrun, hdone, hfl⟩

/-- Progress of the pool: from a reachable state in which `shutdown()` has not
begun, some worker thread has been started and a `notify_one` of a `submit` is
outstanding, the pool by itself (worker steps and one `notify_one`) runs every
wrapper that is in the queue. -/
theorem serve_queued_task (n : Int) (s : ThreadPool V E) (hs : Reachable n s)
    (hflag : s.m_shutdown = false) (i : Nat) (w : ThreadWorker)
    (hw : s.m_threads[i]? = some w) (hstarted : w.pc ≠ Pc.notStarted)
    (hun : 0 < s.unnotified) (k : Nat) (hk : Wrapper.task k ∈ s.m_queue.m_queue) :
    ∃ sched s2, poolSched sched = true ∧ s.run sched = some s2 ∧
      s2.invoked k = 1 ∧ s2.m_shutdown = false := by
  have hinv := hs.inv
  cases hm : s.m_conditional_mutex with
  | none => exact serve_free n s hs hflag hm i w hw hstarted hun k hk
  | some j =>
    obtain ⟨wj, hwj, hh⟩ := hinv.holds_of_mutex j hm
    have hjlt : j < s.m_threads.length := (List.getElem?_eq_some.1 hwj).1
    by_cases hew : wj.pc = Pc.enterWait
    · have hstep : s.worker j = some { s with
          m_threads := s.m_threads.set j { wj with pc := Pc.waiting }
          m_conditional_mutex := none } := by
        simp only [ThreadPool.worker, hwj, ThreadPool.operator_call, hew]
      have hs' := Reachable.step (Action.worker j) hs hstep
      have hex : ∃ w', (s.m_threads.set j { wj with pc := Pc.waiting })[i]? = some w' ∧
          w'.pc ≠ Pc.notStarted := by
        by_cases hij : i = j
        · subst hij
          exact ⟨_, List.getElem?_set_self hjlt, by simp⟩
        · exact ⟨w, by rw [List.getElem?_set_ne (fun e => hij e.symm)]; exact hw, hstarted⟩
      obtain ⟨w', hw', hst'⟩ := hex
      obtain ⟨sched, s2, hps, hrun, hdone, hfl⟩ :=
        serve_free n _ hs' hflag rfl i w' hw' hst' hun k hk
      exact ⟨Action.worker j :: sched, s2, poolSched_worker_cons j hps,
        ThreadPool.run_cons_worker hstep hrun, hdone, hfl⟩
    · have hact : wj.pc.active = true := by
        cases hpc : wj.pc <;> simp_all [Pc.active, Pc.holdsMutex]
      obtain ⟨sched, s2, hall, hrun, hdone, hfl⟩ :=
        serve_by_worker n k j _ s wj hs hflag (Or.inr hm) hwj hact (Or.inl hk)
          (Nat.lt_succ_self _)
      exact ⟨sched, s2, poolSched_of_workers hall, hrun, hdone, hfl⟩

theorem ThreadPool.step_started {s s' : ThreadPool V E} {a : Action V E}
    (h : s.step a = some s') (i : Nat) (w : ThreadWorker) (hw : s.m_threads[i]? = some w)
    (hst : w.pc ≠ Pc.notStarted) :
    ∃ w', s'.m_threads[i]? = some w' ∧ w'.pc ≠ Pc.notStarted := by
  have hlt : i < s.m_threads.length := (List.getElem?_eq_some.1 hw).1
  have hset : ∀ (j : Nat) (v : ThreadWorker), v.pc ≠ Pc.notStarted →
      ∃ w', (s.m_threads.set j v)[i]? = some w' ∧ w'.pc ≠ Pc.notStarted := by
    intro j v hv
    by_cases hij : i = j
    · subst hij
      exact ⟨v, List.getElem?_set_self hlt, hv⟩
    · exact ⟨w, by rw [List.getElem?_set_ne (fun e => hij e.symm)]; exact hw, hst⟩
  cases a with
  | init =>
    simp only [ThreadPool.step, ThreadPool.init] at h
    split at h
    · split at h
      · split at h
        · split at h
          · cases h
          · cases h; exact hset _ _ (by simp)
        · cases h
      · cases h; exact ⟨w, hw, hst⟩
    · cases h
    · cases h
    · cases h; exact ⟨w, hw, hst⟩
  | shutdown =>
    simp only [ThreadPool.step, ThreadPool.shutdown] at h
    split at h
    · cases h
    · cases h
      refine ⟨ThreadPool.wake w, ?_, fun hn => hst ((wake_props w).2.2.2.2.2.1.1 hn)⟩
      show (s.m_threads.map ThreadPool.wake)[i]? = _
      rw [List.getElem?_map, hw]; rfl
    · split at h
      · split at h
        · rename_i v hv
          split at h
          · split at h
            · rename_i hpc
              cases h; exact hset _ _ (by simp [hpc])
            · cases h
          · cases h; exact ⟨w, hw, hst⟩
        · cases h
      · cases h; exact ⟨w, hw, hst⟩
    · cases h; exact ⟨w, hw, hst⟩
  | submit func =>
    simp only [ThreadPool.step, Option.some.injEq] at h
    subst h
    exact ⟨w, hw, hst⟩
  | notify_one j =>
    simp only [ThreadPool.step, ThreadPool.notify_one] at h
    split at h
    · cases h
    · split at h
      · split at h
        · cases h; exact ⟨w, hw, hst⟩
        · cases h
      · split at h
        · split at h
          · cases h; exact hset _ _ (by simp)
          · cases h
        · cases h
  | worker j =>
    obtain ⟨v, v', p', hv, hstep, rfl⟩ := ThreadPool.worker_eq_some h
    obtain ⟨-, -, -, hns', -⟩ := hstep.thread_effect
    have := hset j v' hns'
    rw [← hstep.threads_eq] at this
    exact this
  | spurious j =>
    simp only [ThreadPool.step, ThreadPool.spurious] at h
    split at h
    · split at h
      · cases h; exact hset _ _ (by simp)
      · cases h
    · cases h

theorem Steps.started {s s2 : ThreadPool V E} (h : Steps s s2) (i : Nat) (w : ThreadWorker)
    (hw : s.m_threads[i]? = some w) (hst : w.pc ≠ Pc.notStarted) :
    ∃ w', s2.m_threads[i]? = some w' ∧ w'.pc ≠ Pc.notStarted := by
  induction h with
  | refl => exact ⟨w, hw, hst⟩
  | step a _ hstep ih =>
    obtain ⟨w1, hw1, hst1⟩ := ih
    exact ThreadPool.step_started hstep i w1 hw1 hst1

/-- C5 (counterexample): a task submitted after a failed one need not be
dequeued.  One worker runs a task that raises; its future raises the error.
(a) The worker then finds the queue empty; a task is submitted before the worker
reaches `wait`, and the worker blocks: the later task sits in the queue, not
run, its future not ready, and neither the worker nor any outstanding
`notify_one` can move.  (b) Or the later task is submitted and `shutdown()` is
called before the worker looks at the queue: `shutdown()` returns, the worker
has terminated, and the later task was never run. -/
theorem later_task_not_served :
    (Reachable 1 (ThreadPool.after 1 strandSched) ∧
      (ThreadPool.after 1 strandSched).future_get 0 =
        some (Except.error DemoError.division_by_zero) ∧
      (ThreadPool.after 1 strandSched).m_queue.m_queue = [Wrapper.task 1] ∧
      (ThreadPool.after 1 strandSched).pcOf 0 = Pc.waiting ∧
      (ThreadPool.after 1 strandSched).unnotified = 0 ∧
      (ThreadPool.after 1 strandSched).m_shutdown = false ∧
      (ThreadPool.after 1 strandSched).invoked 1 = 0 ∧
      (ThreadPool.after 1 strandSched).future_get 1 = none ∧
      (∀ i, (ThreadPool.after 1 strandSched).worker i = none) ∧
      (∀ i, (ThreadPool.after 1 strandSched).notify_one i = none)) ∧
    (Reachable 1 (ThreadPool.after 1 dropLaterSched) ∧
      (ThreadPool.after 1 dropLaterSched).future_get 0 =
        some (Except.error DemoError.division_by_zero) ∧
      (ThreadPool.after 1 dropLaterSched).phase = Phase.returned ∧
      (ThreadPool.after 1 dropLaterSched).pcOf 0 = Pc.terminated ∧
      (ThreadPool.after 1 dropLaterSched).m_queue.m_queue = [Wrapper.task 1] ∧
      (ThreadPool.after 1 dropLaterSched).invoked 1 = 0 ∧
      (ThreadPool.after 1 dropLaterSched).future_get 1 = none) := by
  refine ⟨⟨Reachable.of_runFrom strandSched rfl, rfl, rfl, rfl, rfl, rfl, rfl, rfl, ?_, ?_⟩,
    ⟨Reachable.of_runFrom dropLaterSched rfl, rfl, rfl, rfl, rfl, rfl, rfl⟩⟩
  · intro i
    cases i with
    | zero => rfl
    | succ i => rfl
  · intro i
    rfl

/-- C5 (amended): task failure isolation.  Let a worker be about to run the
wrapper of a submitted callable that raises the error `e`.  Its step returns
normally: the
worker is back at the loop head (neither terminated nor aborted), the queue,
the shutdown flag, the other workers and the other tasks' futures are
unchanged, and the task's own future raises `e`.  In every continuation of the
run no worker is ever aborted by an exception, a worker is terminated only when
the shutdown flag is set, and the future keeps raising `e`; and as long as
`shutdown()` has not begun, the pool can by itself serve a task submitted
afterwards: there is a schedule made only of steps of the workers and of the
one `notify_one` of that `submit` (no spurious wakeup, no further `submit`, no
`init()`, no `shutdown()`, the flag still false at its end) after which the
task has been dequeued and executed exactly once and its own future holds its
own result. -/
theorem task_failure_isolated (n_threads : Int) (s : ThreadPool V E)
    (hs : Reachable n_threads s) (i : Nat) (w : ThreadWorker) (k : Nat)
    (p : PackagedTask V E) (e : E) (hw : s.m_threads[i]? = some w)
    (hpc : w.pc = Pc.running) (hf : w.func = Wrapper.task k) (hp : s.heap[k]? = some p)
    (herr : p.func () = Except.error e) :
    ∃ s', s.worker i = some s' ∧
      s'.pcOf i = Pc.loopHead ∧
      s'.m_queue = s.m_queue ∧ s'.m_shutdown = s.m_shutdown ∧
      s'.m_conditional_mutex = s.m_conditional_mutex ∧
      (∀ j, j ≠ i → s'.m_threads[j]? = s.m_threads[j]?) ∧
      (∀ k', k' ≠ k → s'.heap[k']? = s.heap[k']?) ∧
      s'.future_get k = some (Except.error e) ∧
      (∀ s1, Steps s' s1 →
        (∀ j, s1.pcOf j ≠ Pc.aborted) ∧
        (∀ j, s1.pcOf j = Pc.terminated → s1.m_shutdown = true) ∧
        s1.future_get k = some (Except.error e) ∧
        (s1.m_shutdown = false → ∀ g : Unit → Except E V,
          ∃ sched s2, poolSched sched = true ∧ (s1.submit g).run sched = some s2 ∧
            s2.m_shutdown = false ∧ s2.invoked s1.heap.length = 1 ∧
            s2.future_get s1.heap.length = some (g ()))) := by
  have hinv := hs.inv
  have hlt : i < s.m_threads.length := (List.getElem?_eq_some.1 hw).1
  have hklt : k < s.heap.length := (List.getElem?_eq_some.1 hp).1
  obtain ⟨k0, p0, hf0, hp0, hst, hi0⟩ :=
    hinv.pending_state hw (by simp [ThreadWorker.holdsTask, hpc])
  rw [hf] at hf0; cases hf0
  rw [hp] at hp0; cases hp0
  have hstep : s.worker i = some { s with
      m_threads := s.m_threads.set i { w with pc := Pc.loopHead }
      heap := s.heap.set k
        { p with state := some (p.func ()), calls := p.calls + 1,
                 invoked := p.invoked + 1 } } := by
    simp only [ThreadPool.worker, hw, ThreadPool.operator_call, hpc, hf, hp,
      PackagedTask.invoke_of_none hst, if_true]
  refine ⟨_, hstep, ?_, rfl, rfl, rfl, ?_, ?_, ?_, ?_⟩
  · simp only [ThreadPool.pcOf, List.getElem?_set_self hlt]
  · intro j hj
    exact List.getElem?_set_ne (fun e => hj e.symm)
  · intro k' hk'
    exact List.getElem?_set_ne (fun e => hk' e.symm)
  · simp only [ThreadPool.future_get, List.getElem?_set_self hklt, herr]
  · intro s1 hsteps
    have hs' := Reachable.step (Action.worker i) hs hstep
    have hs1 := hs'.steps hsteps
    have hinv1 := hs1.inv
    refine ⟨?_, ?_, ?_, ?_⟩
    · intro j
      unfold ThreadPool.pcOf
      cases hj : s1.m_threads[j]? with
      | none => simp
      | some v => exact hinv1.not_aborted j v hj
    · intro j
      unfold ThreadPool.pcOf
      cases hj : s1.m_threads[j]? with
      | none => intro h; cases h
      | some v => exact hinv1.terminated_flag j v hj
    · obtain ⟨q, hq, hqf, hqi⟩ := hsteps.heap_entry_mono k _ (List.getElem?_set_self hklt)
      have h1 : 1 ≤ s1.invoked k := by
        simp only [ThreadPool.invoked, hq]
        simp only at hqi
        omega
      rw [(hinv1.future_spec hq).1 h1, hqf]
      exact congrArg some herr
    · intro hflag1 g
      obtain ⟨w1, hw1, hst1⟩ := hsteps.started i { w with pc := Pc.loopHead }
        (List.getElem?_set_self hlt) (by simp)
      have hsub : Reachable n_threads (s1.submit g) := Reachable.step (Action.submit g) hs1 rfl
      obtain ⟨sched, s2, hps, hrun, hdone, hfl⟩ :=
        serve_queued_task n_threads (s1.submit g) hsub
        hflag1 i w1 hw1 hst1 (Nat.succ_pos _) s1.heap.length
        (by
          show Wrapper.task s1.heap.length ∈ s1.m_queue.m_queue ++ [Wrapper.task s1.heap.length]
          simp)
      refine ⟨sched, s2, hps, hrun, hfl, hdone, ?_⟩
      have hnew : (s1.submit g).heap[s1.heap.length]? = some ⟨g, none, 0, 0⟩ := by
        show (s1.heap ++ [_])[s1.heap.length]? = _
        rw [List.getElem?_append_right (Nat.le_refl _)]
        simp
      obtain ⟨q, hq, hqf, -⟩ := (Steps.of_run sched hrun).heap_entry_mono _ _ hnew
      have hinv2 := (hsub.steps (Steps.of_run sched hrun)).inv
      rw [(hinv2.future_spec hq).1 (by omega), hqf]


/-- C5 (witness): one worker is about to run a submitted division by zero.  Its
step brings it back to the loop head and the future raises the division error;
the worker then blocks in `wait`, a task submitted afterwards wakes it through
`notify_one`, is served, and its future yields 7. -/
theorem task_failure_isolated_witness :
    (ThreadPool.after 1 (failSched ++ [Action.worker 0])).pcOf 0 = Pc.loopHead ∧
    (ThreadPool.after 1 (failSched ++ [Action.worker 0])).future_get 0 =
      some (Except.error DemoError.division_by_zero) ∧
    (ThreadPool.after 1 (failSched ++ [Action.worker 0] ++ serveNext)).future_get 0 =
      some (Except.error DemoError.division_by_zero) ∧
    (ThreadPool.after 1 (failSched ++ [Action.worker 0] ++ serveNext)).future_get 1 =
      some (Except.ok 7) := by
  obtain ⟨s', h1, h2, -, -, -, -, -, h3, h4⟩ :=
    task_failure_isolated 1 (ThreadPool.after 1 failSched)
      (Reachable.of_runFrom failSched rfl) 0 ⟨Pc.running, Wrapper.task 0, true, true⟩ 0
      ⟨failing, none, 0, 0⟩ DemoError.division_by_zero rfl rfl rfl rfl rfl
  have hs' : (ThreadPool.after 1 failSched).worker 0 =
      some (ThreadPool.after 1 (failSched ++ [Action.worker 0])) := rfl
  rw [hs'] at h1
  cases h1
  exact ⟨h2, h3, (h4 _ (Steps.of_run serveNext (by rfl))).2.2.1, rfl⟩

end ThreadPoolSpec
